import Mathlib

/-
Verification of the geoapify-erpnext plugin.

The Python sources (geoapify/geoapify/api/routing.py and
geoapify/geoapify/geoapify.py) are shallowly embedded below.  Python
floats are modelled as exact rationals; every float literal produced by
parsing a decimal string is an exact rational of the form m / 10 ^ k,
and the textual rendering used by the code (f-string interpolation of a
float, i.e. repr) is modelled by an exact decimal renderer.  Python repr
of a float is the shortest decimal string that parses back to the same
float, so at the level of values both the real renderer and the model
renderer are exact inverses of parsing; theorems below only ever compare
values, never the spelling of the rendered digits.  Details of float()
that the claims never touch (inf, nan, underscore separators, unicode
digits) are outside the modelled grammar.
-/

namespace GeoErp

/-! ### Characters, whitespace, splitting -/

/-- The whitespace characters stripped by Python str.strip (ASCII part). -/
def isPySpace (c : Char) : Bool :=
  c = ' ' || c = '\t' || c = '\n' || c = '\r' || c = '\x0b' || c = '\x0c'

/-- Model of Python str.strip on a character list. -/
def trimList (l : List Char) : List Char :=
  ((l.dropWhile isPySpace).reverse.dropWhile isPySpace).reverse

/-- Model of Python str.split(sep) for a one-character separator:
"a||b".split("|") gives ["a", "", "b"] and "".split("|") gives [""]. -/
def splitOn (sep : Char) : List Char → List (List Char)
  | [] => [[]]
  | c :: rest =>
    if c = sep then [] :: splitOn sep rest
    else
      match splitOn sep rest with
      | [] => [[c]]
      | g :: gs => (c :: g) :: gs

/-! ### Digits and decimal numerals -/

def digToChar (d : ℕ) : Char := Char.ofNat (48 + d)

def charToDig (c : Char) : Option ℕ :=
  if 48 ≤ c.toNat ∧ c.toNat ≤ 57 then some (c.toNat - 48) else none

/-- Take the longest digit prefix, returning the digits and the rest. -/
def takeDigits : List Char → (List ℕ × List Char)
  | [] => ([], [])
  | c :: r =>
    match charToDig c with
    | some d => let p := takeDigits r; (d :: p.1, p.2)
    | none => ([], c :: r)

/-- Value of a most-significant-first digit list. -/
def digitsToNat (ds : List ℕ) : ℕ := ds.foldl (fun a d => a * 10 + d) 0

/-- Little-endian decimal digits with explicit fuel (kernel-friendly). -/
def digitsAuxLE : ℕ → ℕ → List ℕ
  | 0, _ => []
  | fuel + 1, n => if n = 0 then [] else n % 10 :: digitsAuxLE fuel (n / 10)

/-- Most-significant-first decimal digits of a natural number ([] for 0). -/
def natToDigits (n : ℕ) : List ℕ := (digitsAuxLE n n).reverse

theorem digitsAuxLE_eq (fuel : ℕ) : ∀ n : ℕ, n ≤ fuel → digitsAuxLE fuel n = Nat.digits 10 n := by
  induction fuel with
  | zero =>
    intro n hn
    interval_cases n
    simp [digitsAuxLE]
  | succ fuel ih =>
    intro n hn
    by_cases h0 : n = 0
    · subst h0; simp [digitsAuxLE]
    · rw [digitsAuxLE, if_neg h0,
        Nat.digits_def' (by norm_num : 1 < 10) (Nat.pos_of_ne_zero h0),
        ih (n / 10) (by omega)]

theorem natToDigits_eq (n : ℕ) : natToDigits n = (Nat.digits 10 n).reverse := by
  unfold natToDigits
  rw [digitsAuxLE_eq n n le_rfl]

/-! ### Model of Python float(string) -/

/-- Read an optional leading sign; true means negative. -/
def readSign (l : List Char) : Bool × List Char :=
  match l with
  | c :: r => if c = '-' then (true, r) else if c = '+' then (false, r) else (false, l)
  | [] => (false, [])

/-- Apply an exponent suffix (the part after e or E) to a parsed value. -/
def applyExp (q : ℚ) (l : List Char) : Option ℚ :=
  let p := readSign l
  let dp := takeDigits p.2
  if dp.1 = [] ∨ dp.2 ≠ [] then none
  else some (if p.1 then q / 10 ^ digitsToNat dp.1 else q * 10 ^ digitsToNat dp.1)

/-- Model of Python float(s) on an already whitespace-stripped character
list: optional sign, integer digits, optional fractional digits, optional
exponent; at least one digit overall. -/
def parseFloatChars (l : List Char) : Option ℚ :=
  let sp := readSign l
  let ip := takeDigits sp.2
  let fp : List ℕ × List Char :=
    if ip.2.head? = some '.' then takeDigits ip.2.tail else ([], ip.2)
  if ip.1 = [] ∧ fp.1 = [] then none
  else
    let mag : ℚ :=
      ((digitsToNat ip.1 * 10 ^ fp.1.length + digitsToNat fp.1 : ℕ) : ℚ) /
        ((10 ^ fp.1.length : ℕ) : ℚ)
    let signed : ℚ := if sp.1 then -mag else mag
    if fp.2 = [] then some signed
    else if fp.2.head? = some 'e' ∨ fp.2.head? = some 'E' then applyExp signed fp.2.tail
    else none

/-! ### Exact decimal rendering (model of repr of a Python float) -/

/-- Pad a digit list with leading zeros to length at least k. -/
def padTo (k : ℕ) (ds : List ℕ) : List ℕ :=
  List.replicate (k - ds.length) 0 ++ ds

/-- Render m / 10 ^ k (k at least 1) in fixed-point decimal. -/
def renderFixed (m : ℤ) (k : ℕ) : List Char :=
  let ds := padTo (k + 1) (natToDigits m.natAbs)
  (if m < 0 then ['-'] else []) ++
    (ds.take (ds.length - k)).map digToChar ++
      '.' :: (ds.drop (ds.length - k)).map digToChar

/-- A rational is decimal-representable when its reduced denominator
divides a power of ten (every Python float value is of this form). -/
def IsDec (q : ℚ) : Prop := (q.den : ℕ) ∣ 10 ^ q.den

instance (q : ℚ) : Decidable (IsDec q) := by
  unfold IsDec
  infer_instance

/-- Exact decimal rendering of a decimal-representable rational, using
the (non-minimal but exact) exponent q.den. -/
def renderRatChars (q : ℚ) : List Char :=
  renderFixed (q.num * ((10 ^ q.den / q.den : ℕ) : ℤ)) q.den

/-! ### Basic digit lemmas -/

theorem charToDig_digToChar : ∀ d : ℕ, d < 10 → charToDig (digToChar d) = some d := by
  decide

theorem charToDig_isSome_of_lt (d : ℕ) (h : d < 10) :
    (charToDig (digToChar d)).isSome := by
  rw [charToDig_digToChar d h]; rfl

theorem takeDigits_map_append (ds : List ℕ) (rest : List Char)
    (h : ∀ d ∈ ds, d < 10)
    (h2 : ∀ c, rest.head? = some c → charToDig c = none) :
    takeDigits (ds.map digToChar ++ rest) = (ds, rest) := by
  induction ds with
  | nil =>
    cases rest with
    | nil => rfl
    | cons c r =>
      simp only [List.map_nil, List.nil_append, takeDigits]
      rw [h2 c rfl]
  | cons d ds ih =>
    simp only [List.map_cons, List.cons_append, takeDigits]
    rw [charToDig_digToChar d (h d (by simp))]
    simp only [List.append_eq]
    rw [ih (fun x hx => h x (by simp [hx]))]

theorem digitsToNat_go (b : List ℕ) (x : ℕ) :
    b.foldl (fun a d => a * 10 + d) x = x * 10 ^ b.length + digitsToNat b := by
  induction b generalizing x with
  | nil => simp [digitsToNat]
  | cons d b ih =>
    simp only [List.foldl_cons, digitsToNat, List.length_cons]
    rw [ih (x * 10 + d), ih (0 * 10 + d)]
    ring

theorem digitsToNat_append (a b : List ℕ) :
    digitsToNat (a ++ b) = digitsToNat a * 10 ^ b.length + digitsToNat b := by
  unfold digitsToNat
  rw [List.foldl_append]
  exact digitsToNat_go b _

theorem digitsToNat_replicate_zero (n : ℕ) :
    digitsToNat (List.replicate n 0) = 0 := by
  induction n with
  | zero => rfl
  | succ n ih =>
    simp only [List.replicate_succ, digitsToNat, List.foldl_cons]
    simpa [digitsToNat] using ih

theorem digitsToNat_padTo (k : ℕ) (ds : List ℕ) :
    digitsToNat (padTo k ds) = digitsToNat ds := by
  unfold padTo
  rw [digitsToNat_append, digitsToNat_replicate_zero]
  simp

theorem digitsToNat_natToDigits (n : ℕ) : digitsToNat (natToDigits n) = n := by
  rw [natToDigits_eq]
  have h : ∀ l : List ℕ, digitsToNat l.reverse = Nat.ofDigits 10 l := by
    intro l
    induction l with
    | nil => rfl
    | cons d l ih =>
      rw [List.reverse_cons, digitsToNat_append, ih, Nat.ofDigits_cons]
      simp [digitsToNat]
      ring
  rw [h, Nat.ofDigits_digits]

theorem natToDigits_lt (n : ℕ) : ∀ d ∈ natToDigits n, d < 10 := by
  intro d hd
  rw [natToDigits_eq] at hd
  rw [List.mem_reverse] at hd
  exact Nat.digits_lt_base (by norm_num) hd

theorem padTo_lt (k : ℕ) (ds : List ℕ) (h : ∀ d ∈ ds, d < 10) :
    ∀ d ∈ padTo k ds, d < 10 := by
  intro d hd
  unfold padTo at hd
  rw [List.mem_append] at hd
  rcases hd with hd | hd
  · rw [List.eq_of_mem_replicate hd]; norm_num
  · exact h d hd

theorem padTo_length (k : ℕ) (ds : List ℕ) : k ≤ (padTo k ds).length := by
  unfold padTo
  rw [List.length_append, List.length_replicate]
  omega

/-! ### Round trip: parsing a rendered decimal recovers the value -/

theorem readSign_digit (c : Char) (r : List Char) (h : (charToDig c).isSome) :
    readSign (c :: r) = (false, c :: r) := by
  have h1 : c ≠ '-' := by
    rintro rfl; simp [charToDig] at h
  have h2 : c ≠ '+' := by
    rintro rfl; simp [charToDig] at h
  simp [readSign, h1, h2]

theorem takeDigits_none (c : Char) (r : List Char) (h : charToDig c = none) :
    takeDigits (c :: r) = ([], c :: r) := by
  simp [takeDigits, h]

theorem readSign_neg (r : List Char) : readSign ('-' :: r) = (true, r) := by
  simp [readSign]

theorem parseFloat_renderFixed (m : ℤ) (k : ℕ) (hk : 1 ≤ k) :
    parseFloatChars (renderFixed m k) = some ((m : ℚ) / 10 ^ k) := by
  set ds := padTo (k + 1) (natToDigits m.natAbs) with hds_def
  have hds : ∀ d ∈ ds, d < 10 := padTo_lt _ _ (natToDigits_lt _)
  have hlen : k + 1 ≤ ds.length := padTo_length _ _
  set ipart := ds.take (ds.length - k) with hip_def
  set fpart := ds.drop (ds.length - k) with hfp_def
  have hip_len : ipart.length = ds.length - k := by
    rw [hip_def, List.length_take]; omega
  have hfp_len : fpart.length = k := by
    rw [hfp_def, List.length_drop]
    omega
  have hip_mem : ∀ d ∈ ipart, d < 10 := fun d hd => hds d (List.take_subset _ _ hd)
  have hfp_mem : ∀ d ∈ fpart, d < 10 := fun d hd => hds d (List.drop_subset _ _ hd)
  have hip_ne : ipart ≠ [] := by
    intro hnil
    rw [hnil] at hip_len
    simp at hip_len
    omega
  have hrender : renderFixed m k =
      (if m < 0 then ['-'] else []) ++
        (ipart.map digToChar ++ '.' :: fpart.map digToChar) := by
    unfold renderFixed
    rw [hip_def, hfp_def, hds_def]
    simp
  have hval : digitsToNat ipart * 10 ^ k + digitsToNat fpart = m.natAbs := by
    have h := digitsToNat_append ipart fpart
    rw [hfp_len] at h
    rw [← h, hip_def, hfp_def, List.take_append_drop, hds_def, digitsToNat_padTo,
      digitsToNat_natToDigits]
  have hbody :
      takeDigits (ipart.map digToChar ++ '.' :: fpart.map digToChar) =
        (ipart, '.' :: fpart.map digToChar) := by
    apply takeDigits_map_append _ _ hip_mem
    intro c hc
    simp at hc
    rw [← hc]
    decide
  have hfrac : takeDigits (fpart.map digToChar) = (fpart, []) := by
    have h := takeDigits_map_append fpart [] hfp_mem (by intro c hc; simp at hc)
    simpa using h
  have hguard : ¬(ipart = [] ∧ fpart = []) := fun h => hip_ne h.1
  have habs :
      ((digitsToNat ipart * 10 ^ (fpart.length) + digitsToNat fpart : ℕ) : ℚ) /
          ((10 ^ (fpart.length) : ℕ) : ℚ) = ((m.natAbs : ℚ)) / 10 ^ k := by
    rw [hfp_len, hval]
    push_cast
    ring
  obtain ⟨d0, itl, hi⟩ := List.exists_cons_of_ne_nil hip_ne
  have hhead : (charToDig (digToChar d0)).isSome :=
    charToDig_isSome_of_lt d0 (hip_mem d0 (by rw [hi]; exact List.mem_cons_self _ _))
  have hq : ((digitsToNat ipart : ℚ)) * 10 ^ k + (digitsToNat fpart : ℚ) =
      (m.natAbs : ℚ) := by
    exact_mod_cast congrArg (fun n : ℕ => (n : ℚ)) hval
  by_cases hm : m < 0
  · have hcast : (m.natAbs : ℚ) = -(m : ℚ) := by
      have habs2 : |m| = -m := abs_of_neg hm
      rw [Int.cast_natAbs, habs2]
      push_cast
      ring
    rw [hrender, if_pos hm, List.singleton_append]
    unfold parseFloatChars
    simp [readSign_neg, hbody, hfrac, hip_ne, hfp_len]
    rw [hq, hcast]
    ring
  · have hcast : (m.natAbs : ℚ) = (m : ℚ) := by
      have habs2 : |m| = m := abs_of_nonneg (not_lt.mp hm)
      rw [Int.cast_natAbs, habs2]
    rw [hrender, if_neg hm, List.nil_append]
    unfold parseFloatChars
    rw [hi, List.map_cons, List.cons_append, readSign_digit _ _ hhead,
      ← List.cons_append, ← List.map_cons, ← hi]
    simp [hbody, hfrac, hip_ne, hfp_len]
    rw [hq, hcast]

/-! ### Decimal-representable rationals -/

theorem dvd_pow_ten_self {d j : ℕ} (h : d ∣ 10 ^ j) : d ∣ 10 ^ d := by
  have h25 : (10 : ℕ) ^ j = 2 ^ j * 5 ^ j := by
    rw [show (10 : ℕ) = 2 * 5 from rfl, Nat.mul_pow]
  rw [h25] at h
  obtain ⟨y, z, hy, hz, hyz⟩ := Nat.dvd_mul.mp h
  obtain ⟨a, ha, rfl⟩ := (Nat.dvd_prime_pow Nat.prime_two).mp hy
  obtain ⟨b, hb, rfl⟩ := (Nat.dvd_prime_pow (by norm_num)).mp hz
  have hda : a ≤ d := by
    have h1 : a < 2 ^ a := Nat.lt_two_pow a
    have h2 : 2 ^ a ≤ 2 ^ a * 5 ^ b :=
      Nat.le_mul_of_pos_right _ (pow_pos (by norm_num) b)
    have h3 : a < d := by rw [← hyz]; exact lt_of_lt_of_le h1 h2
    omega
  have hdb : b ≤ d := by
    have h1 : b < 5 ^ b := Nat.lt_pow_self (by norm_num) b
    have h2 : 5 ^ b ≤ 2 ^ a * 5 ^ b :=
      Nat.le_mul_of_pos_left _ (pow_pos (by norm_num) a)
    have h3 : b < d := by rw [← hyz]; exact lt_of_lt_of_le h1 h2
    omega
  rw [show (10 : ℕ) = 2 * 5 from rfl, Nat.mul_pow]
  have hfin : 2 ^ a * 5 ^ b ∣ 2 ^ d * 5 ^ d :=
    mul_dvd_mul (pow_dvd_pow 2 hda) (pow_dvd_pow 5 hdb)
  rwa [hyz] at hfin

/-- Every quotient of an integer by a power of ten is decimal-representable. -/
theorem isDec_div_pow (m : ℤ) (t : ℕ) : IsDec ((m : ℚ) / (10 : ℚ) ^ t) := by
  apply dvd_pow_ten_self (j := t)
  have hc : ((10 : ℚ) ^ t) = (((10 ^ t : ℕ) : ℤ) : ℚ) := by push_cast; ring
  rw [hc]
  have h := Rat.den_dvd m ((10 ^ t : ℕ) : ℤ)
  rw [Rat.divInt_eq_div] at h
  exact_mod_cast h

/-- Every value produced by the float parser is an integer over a power
of ten (the model counterpart of: every Python float is a finite binary,
hence finite decimal, fraction). -/
theorem parseFloat_shape {l : List Char} {q : ℚ}
    (h : parseFloatChars l = some q) :
    ∃ (m : ℤ) (t : ℕ), q = (m : ℚ) / (10 : ℚ) ^ t := by
  unfold parseFloatChars at h
  set sp := readSign l with hsp
  set ip := takeDigits sp.2 with hip
  set fp := if ip.2.head? = some '.' then takeDigits ip.2.tail else ([], ip.2) with hfp
  simp only at h
  by_cases hg : ip.1 = [] ∧ fp.1 = []
  · rw [if_pos hg] at h; exact absurd h (by simp)
  rw [if_neg hg] at h
  set N : ℕ := digitsToNat ip.1 * 10 ^ fp.1.length + digitsToNat fp.1 with hN
  set f : ℕ := fp.1.length with hf
  by_cases he : fp.2 = []
  · rw [if_pos he] at h
    rw [Option.some_inj] at h
    by_cases hs : sp.1
    · rw [if_pos hs] at h
      refine ⟨-(N : ℤ), f, ?_⟩
      rw [← h]
      push_cast
      ring
    · rw [if_neg hs] at h
      refine ⟨(N : ℤ), f, ?_⟩
      rw [← h]
      push_cast
      ring
  rw [if_neg he] at h
  by_cases hE : fp.2.head? = some 'e' ∨ fp.2.head? = some 'E'
  swap
  · rw [if_neg hE] at h; exact absurd h (by simp)
  rw [if_pos hE] at h
  unfold applyExp at h
  set ep := readSign fp.2.tail with hep
  set dp := takeDigits ep.2 with hdp
  simp only at h
  by_cases hd : dp.1 = [] ∨ dp.2 ≠ []
  · rw [if_pos hd] at h; exact absurd h (by simp)
  rw [if_neg hd] at h
  rw [Option.some_inj] at h
  set E : ℕ := digitsToNat dp.1 with hE2
  by_cases hen : ep.1 <;> by_cases hs : sp.1 <;>
    simp only [hen, hs, if_pos, if_neg, if_true, if_false, Bool.false_eq_true] at h
  · exact ⟨-(N : ℤ), f + E, by rw [← h]; push_cast; rw [pow_add]; ring⟩
  · exact ⟨(N : ℤ), f + E, by rw [← h]; push_cast; rw [pow_add]; ring⟩
  · exact ⟨-((N : ℤ) * 10 ^ E), f, by rw [← h]; push_cast; ring⟩
  · exact ⟨(N : ℤ) * 10 ^ E, f, by rw [← h]; push_cast; ring⟩

theorem parseFloat_isDec {l : List Char} {q : ℚ}
    (h : parseFloatChars l = some q) : IsDec q := by
  obtain ⟨m, t, rfl⟩ := parseFloat_shape h
  exact isDec_div_pow m t

/-- Parsing the rendered form of a decimal-representable rational gives
back exactly that rational. -/
theorem parseFloat_renderRat (q : ℚ) (h : IsDec q) :
    parseFloatChars (renderRatChars q) = some q := by
  have hk : 1 ≤ q.den := q.den_pos
  unfold renderRatChars
  rw [parseFloat_renderFixed _ _ hk]
  congr 1
  have hd0 : ((q.den : ℕ) : ℚ) ≠ 0 := by
    exact_mod_cast q.den_pos.ne'
  have hmul : ((10 ^ q.den / q.den : ℕ) : ℚ) * ((q.den : ℕ) : ℚ) = (10 : ℚ) ^ q.den := by
    rw [← Nat.cast_mul, Nat.div_mul_cancel h]
    push_cast
    ring
  have hqd : q * ((q.den : ℕ) : ℚ) = (q.num : ℚ) :=
    ((div_eq_iff hd0).mp (Rat.num_div_den q)).symm
  rw [Int.cast_mul, Int.cast_natCast, div_eq_iff (by positivity : (10 : ℚ) ^ q.den ≠ 0)]
  calc (q.num : ℚ) * ((10 ^ q.den / q.den : ℕ) : ℚ)
      = q * ((q.den : ℕ) : ℚ) * ((10 ^ q.den / q.den : ℕ) : ℚ) := by rw [hqd]
    _ = q * (((10 ^ q.den / q.den : ℕ) : ℚ) * ((q.den : ℕ) : ℚ)) := by ring
    _ = q * (10 : ℚ) ^ q.den := by rw [hmul]

/-! ### Character classes of rendered decimals -/

/-- Characters that can occur in a rendered decimal numeral. -/
def isGoodChar (c : Char) : Bool := (charToDig c).isSome || c = '-' || c = '.'

theorem isPySpace_eq_false_of_good (c : Char) (h : isGoodChar c = true) :
    isPySpace c = false := by
  rcases (by simpa [isGoodChar, Bool.or_eq_true] using h :
      ((charToDig c).isSome = true ∨ c = '-') ∨ c = '.') with (h1 | h1) | h1
  · unfold charToDig at h1
    by_cases hsp : isPySpace c = false
    · exact hsp
    · exfalso
      rw [Bool.not_eq_false] at hsp
      unfold isPySpace at hsp
      simp only [Bool.or_eq_true, decide_eq_true_eq] at hsp
      split at h1
      · rename_i hrange
        rcases hsp with ((((rfl | rfl) | rfl) | rfl) | rfl) | rfl <;>
          revert hrange <;> decide
      · simp at h1
  · subst h1; decide
  · subst h1; decide

theorem good_ne_sep (c : Char) (h : isGoodChar c = true) :
    c ≠ '|' ∧ c ≠ ',' ∧ c ≠ '[' ∧ c ≠ '{' ∧ c ≠ ']' ∧ c ≠ '"' := by
  refine ⟨?_, ?_, ?_, ?_, ?_, ?_⟩ <;> rintro rfl <;> revert h <;> decide

theorem renderFixed_good (m : ℤ) (k : ℕ) :
    ∀ c ∈ renderFixed m k, isGoodChar c = true := by
  intro c hc
  unfold renderFixed at hc
  simp only [List.mem_append, List.mem_cons, List.mem_map] at hc
  have hdig : ∀ d : ℕ, d < 10 → isGoodChar (digToChar d) = true := by
    intro d hd
    unfold isGoodChar
    rw [charToDig_isSome_of_lt d hd]
    rfl
  have hds : ∀ d ∈ padTo (k + 1) (natToDigits m.natAbs), d < 10 :=
    padTo_lt _ _ (natToDigits_lt _)
  rcases hc with (hc | ⟨d, hd, rfl⟩) | hc | ⟨d, hd, rfl⟩
  · by_cases hm : m < 0 <;> simp [hm] at hc
    subst hc; decide
  · exact hdig d (hds d (List.take_subset _ _ hd))
  · subst hc; decide
  · exact hdig d (hds d (List.drop_subset _ _ hd))

theorem renderRatChars_good (q : ℚ) :
    ∀ c ∈ renderRatChars q, isGoodChar c = true :=
  renderFixed_good _ _

theorem renderRatChars_length (q : ℚ) : 3 ≤ (renderRatChars q).length := by
  unfold renderRatChars renderFixed
  have h1 : q.den + 1 ≤ (padTo (q.den + 1) (natToDigits (q.num * ((10 ^ q.den / q.den : ℕ) : ℤ)).natAbs)).length :=
    padTo_length _ _
  have h2 : 1 ≤ q.den := q.den_pos
  simp only [List.length_append, List.length_cons, List.length_map, List.length_take,
    List.length_drop]
  omega

/-! ### Python values and errors -/

/-- Model of the Python values flowing through the plugin: None, bool,
float (exact rational), str, list and dict. -/
inductive Val where
  | null : Val
  | bool (b : Bool) : Val
  | num (q : ℚ) : Val
  | str (s : String) : Val
  | list (items : List Val) : Val
  | dict (entries : List (String × Val)) : Val

/-- The observable failure outcomes.  Constructors named after the error
taxonomy; the last three model unhandled Python exceptions (crashes), as
opposed to controlled frappe.throw errors. -/
inductive Err where
  | missingCredential : Err
  | invalidNumber (name : String) (value : Val) : Err
  | outOfRange (message : String) : Err
  | invalidFormat (part : String) : Err
  | invalidJson : Err
  | insufficientWaypoints : Err
  | upstreamUnavailable : Err
  | upstreamError (status : ℕ) (payload : Val) : Err
  | emptyResult : Err
  | httpStatusError (status : ℕ) : Err
  | pyIndexError : Err
  | pyTypeError : Err
  | pyError : Err

/-- Python truthiness of a value. -/
def truthy : Val → Bool
  | .null => false
  | .bool b => b
  | .num q => q != 0
  | .str s => s ≠ ""
  | .list xs => !xs.isEmpty
  | .dict d => !d.isEmpty

/-- First-match association lookup; model of Python dict indexing for the
dicts that appear here (literals and parsed JSON objects with distinct
keys). -/
def dLookup (d : List (String × Val)) (k : String) : Option Val :=
  (d.find? (fun e => e.1 == k)).map (fun e => e.2)

/-- Model of Python dict.get(k): returns None when the key is missing. -/
def dGet (d : List (String × Val)) (k : String) : Val :=
  (dLookup d k).getD .null

/-! ### Model of json.loads (fuel-indexed recursive descent) -/

/-- Characters that may start or continue a JSON number token. -/
def isNumChar (c : Char) : Bool :=
  (charToDig c).isSome || c = '-' || c = '+' || c = '.' || c = 'e' || c = 'E'

/-- Minimal JSON string-escape mapping (the escapes the claims need; the
unicode escape form is outside the modelled grammar). -/
def escChar (c : Char) : Option Char :=
  if c = '"' || c = '\\' || c = '/' then some c
  else if c = 'n' then some '\n'
  else if c = 't' then some '\t'
  else if c = 'r' then some '\r'
  else if c = 'b' then some (Char.ofNat 8)
  else if c = 'f' then some (Char.ofNat 12)
  else none

/-- Scan a JSON string body up to the closing quote. -/
def jStr : List Char → Option (List Char × List Char)
  | [] => none
  | '"' :: r => some ([], r)
  | '\\' :: c :: r =>
    match escChar c, jStr r with
    | some e, some p => some (e :: p.1, p.2)
    | _, _ => none
  | c :: r =>
    match jStr r with
    | some p => some (c :: p.1, p.2)
    | none => none

mutual

/-- Parse one JSON value (fuel-indexed). -/
def jVal : ℕ → List Char → Option (Val × List Char)
  | 0, _ => none
  | f + 1, l =>
    match l.dropWhile isPySpace with
    | '{' :: r => jObj f (r.dropWhile isPySpace)
    | '[' :: r => jArr f (r.dropWhile isPySpace)
    | '"' :: r =>
      match jStr r with
      | some p => some (.str (String.mk p.1), p.2)
      | none => none
    | 't' :: 'r' :: 'u' :: 'e' :: r => some (.bool true, r)
    | 'f' :: 'a' :: 'l' :: 's' :: 'e' :: r => some (.bool false, r)
    | 'n' :: 'u' :: 'l' :: 'l' :: r => some (.null, r)
    | l2 =>
      match parseFloatChars (l2.takeWhile isNumChar) with
      | some q => some (.num q, l2.dropWhile isNumChar)
      | none => none

/-- Parse a JSON array body (after the opening bracket and spaces). -/
def jArr : ℕ → List Char → Option (Val × List Char)
  | 0, _ => none
  | f + 1, l =>
    match l with
    | ']' :: r => some (.list [], r)
    | _ =>
      match jVal f l with
      | some p =>
        match jArrTail f p.2 with
        | some t => some (.list (p.1 :: t.1), t.2)
        | none => none
      | none => none

/-- Parse the rest of a JSON array after one element. -/
def jArrTail : ℕ → List Char → Option (List Val × List Char)
  | 0, _ => none
  | f + 1, l =>
    match l.dropWhile isPySpace with
    | ']' :: r => some ([], r)
    | ',' :: r =>
      match jVal f r with
      | some p =>
        match jArrTail f p.2 with
        | some t => some (p.1 :: t.1, t.2)
        | none => none
      | none => none
    | _ => none

/-- Parse a JSON object body (after the opening brace and spaces). -/
def jObj : ℕ → List Char → Option (Val × List Char)
  | 0, _ => none
  | f + 1, l =>
    match l with
    | '}' :: r => some (.dict [], r)
    | '"' :: r =>
      match jStr r with
      | some k =>
        match k.2.dropWhile isPySpace with
        | ':' :: r2 =>
          match jVal f r2 with
          | some v =>
            match jObjTail f v.2 with
            | some t => some (.dict ((String.mk k.1, v.1) :: t.1), t.2)
            | none => none
          | none => none
        | _ => none
      | none => none
    | _ => none

/-- Parse the rest of a JSON object after one member. -/
def jObjTail : ℕ → List Char → Option (List (String × Val) × List Char)
  | 0, _ => none
  | f + 1, l =>
    match l.dropWhile isPySpace with
    | '}' :: r => some ([], r)
    | ',' :: r =>
      match r.dropWhile isPySpace with
      | '"' :: r2 =>
        match jStr r2 with
        | some k =>
          match k.2.dropWhile isPySpace with
          | ':' :: r3 =>
            match jVal f r3 with
            | some v =>
              match jObjTail f v.2 with
              | some t => some ((String.mk k.1, v.1) :: t.1, t.2)
              | none => none
            | none => none
          | _ => none
        | none => none
      | _ => none
    | _ => none

end

/-- Model of json.loads on a character list: parse one value, require
only whitespace to remain. -/
def jParseChars (l : List Char) : Option Val :=
  match jVal (l.length + 1) l with
  | some p => if p.2.dropWhile isPySpace = [] then some p.1 else none
  | none => none

/-- Model of json.loads on a string. -/
def jParse (s : String) : Option Val := jParseChars s.data

/-! ### routing.py: helpers -/

/-- Model of Python str.strip on a string. -/
def pyStrip (s : String) : String := String.mk (trimList s.data)

/-- Model of Python float(value) applied to an arbitrary value: numbers
and bools convert, strings are parsed after stripping whitespace,
everything else raises (None, lists, dicts). -/
def pyFloat : Val → Option ℚ
  | .num q => some q
  | .bool b => some (if b then 1 else 0)
  | .str s => parseFloatChars (trimList s.data)
  | _ => none

/-- routing.py _parse_float: float(value) with every exception converted
into a frappe.throw naming the field and the raw value. -/
def parse_float (name : String) (value : Val) : Except Err ℚ :=
  match pyFloat value with
  | some q => .ok q
  | none => .error (.invalidNumber name value)

/-- routing.py _validate_lat_lon. -/
def validate_lat_lon (lat lon : ℚ) : Except Err Unit :=
  if ¬(-90 ≤ lat ∧ lat ≤ 90) then
    .error (.outOfRange "Latitude must be between -90 and 90.")
  else if ¬(-180 ≤ lon ∧ lon ≤ 180) then
    .error (.outOfRange "Longitude must be between -180 and 180.")
  else .ok ()

/-- Join character-list segments with a separator character. -/
def joinSep (sep : Char) : List (List Char) → List Char
  | [] => []
  | [p] => p
  | p :: ps => p ++ sep :: joinSep sep ps

/-- routing.py _build_waypoints_two_point: "lat,lon|lat,lon". -/
def build_waypoints_two_point (olat olon dlat dlon : ℚ) : String :=
  String.mk (renderRatChars olat ++ ',' :: renderRatChars olon ++
    '|' :: renderRatChars dlat ++ ',' :: renderRatChars dlon)

/-- routing.py _build_waypoints_multi: coordinates joined by the pipe
character, each rendered "lat,lon". -/
def build_waypoints_multi (ws : List (ℚ × ℚ)) : String :=
  String.mk (joinSep '|'
    (ws.map (fun c => renderRatChars c.1 ++ ',' :: renderRatChars c.2)))

/-! ### routing.py: _normalize_waypoints -/

/-- One stripped, non-empty segment of a delimited waypoint string:
exactly two comma-separated pieces, each parsed as a float, then
range-checked. -/
def processPart (part : List Char) : Except Err (ℚ × ℚ) :=
  match (splitOn ',' part).map trimList with
  | [latS, lonS] => do
    let la ← parse_float "lat" (.str (String.mk latS))
    let lo ← parse_float "lon" (.str (String.mk lonS))
    let _ ← validate_lat_lon la lo
    pure (la, lo)
  | _ => .error (.invalidFormat (String.mk part))

/-- The for-loop over segments: first failure aborts, results in order. -/
def processParts : List (List Char) → Except Err (List (ℚ × ℚ))
  | [] => .ok []
  | p :: ps => do
    let c ← processPart p
    let cs ← processParts ps
    pure (c :: cs)

/-- The delimited branch of _normalize_waypoints: split on the pipe
character, strip each piece, drop the empty ones, process the rest. -/
def normDelimited (raw : List Char) : Except Err (List (ℚ × ℚ)) :=
  processParts (((splitOn '|' raw).map trimList).filter (fun p => p ≠ []))

/-- One item of a waypoint list: a dict uses the lat and lon keys; any
other item is indexed at positions 0 and 1 (an unhandled IndexError when
too short, an unhandled TypeError when not indexable); ranges are
checked after both parses. -/
def processItem : Val → Except Err (ℚ × ℚ)
  | .dict d => do
    let la ← parse_float "lat" (dGet d "lat")
    let lo ← parse_float "lon" (dGet d "lon")
    let _ ← validate_lat_lon la lo
    pure (la, lo)
  | .list [] => .error .pyIndexError
  | .list [a] => do
    let _ ← parse_float "lat" a
    .error .pyIndexError
  | .list (a :: b :: _) => do
    let la ← parse_float "lat" a
    let lo ← parse_float "lon" b
    let _ ← validate_lat_lon la lo
    pure (la, lo)
  | .str s =>
    match s.data with
    | [] => .error .pyIndexError
    | [c] => do
      let _ ← parse_float "lat" (.str (String.mk [c]))
      .error .pyIndexError
    | c1 :: c2 :: _ => do
      let la ← parse_float "lat" (.str (String.mk [c1]))
      let lo ← parse_float "lon" (.str (String.mk [c2]))
      let _ ← validate_lat_lon la lo
      pure (la, lo)
  | _ => .error .pyTypeError

/-- The for-loop over list items. -/
def processItems : List Val → Except Err (List (ℚ × ℚ))
  | [] => .ok []
  | item :: rest => do
    let c ← processItem item
    let cs ← processItems rest
    pure (c :: cs)

/-- The list/dict section of _normalize_waypoints (lines 101-124): a
single dict yields one coordinate; iterating applies Python semantics
(falsy non-iterables iterate as empty via the `or []`, strings iterate
their characters, truthy non-iterables raise TypeError). -/
def normalizeStructured : Val → Except Err (List (ℚ × ℚ))
  | .dict d => do
    let la ← parse_float "lat" (dGet d "lat")
    let lo ← parse_float "lon" (dGet d "lon")
    let _ ← validate_lat_lon la lo
    pure [(la, lo)]
  | .list xs => processItems xs
  | .null => .ok []
  | .bool b => if b then .error .pyTypeError else .ok []
  | .num q => if q = 0 then .ok [] else .error .pyTypeError
  | .str s =>
    if s = "" then .ok []
    else processItems (s.data.map (fun c => .str (String.mk [c])))

/-- routing.py _normalize_waypoints. -/
def normalize_waypoints (w : Val) : Except Err (List (ℚ × ℚ)) :=
  match w with
  | .null => .ok []
  | .str s =>
    let raw := trimList s.data
    if raw = [] then .ok []
    else if raw.head? = some '[' ∨ raw.head? = some '{' then
      match jParseChars raw with
      | some v => normalizeStructured v
      | none => .error .invalidJson
    else normDelimited raw
  | v => normalizeStructured v

/-! ### routing.py: key resolution and the HTTP layer -/

/-- routing.py _get_geoapify_key: a truthy explicit key is stripped and
returned; otherwise the configured key (or the empty string) is
stripped, and an empty result is a fatal missing-credential error. -/
def get_geoapify_key (explicit : Option String) (conf : Option String) :
    Except Err String :=
  match explicit with
  | some s =>
    if s ≠ "" then .ok (pyStrip s)
    else
      let key := pyStrip (conf.getD "")
      if key = "" then .error .missingCredential else .ok key
  | none =>
    let key := pyStrip (conf.getD "")
    if key = "" then .error .missingCredential else .ok key

/-- An HTTP response: status code and raw body text.  The parsed body
(response.json()) is modelled by jParse applied to the text. -/
structure HttpResp where
  status : ℕ
  text : String

/-- The error payload attached to a non-success routing response: the
parsed body, or the raw text wrapped in a message dict when the body is
not parseable JSON. -/
def errorPayload (r : HttpResp) : Val :=
  (jParse r.text).getD (.dict [("message", .str r.text)])

/-- Python value indexing v[0] as used on the first element of a result
list (crashes when v is not a non-empty list; string indexing is not hit
on this path because a truthy string would fail attribute access first,
which the same crash constructor models). -/
def firstIndex : Val → Except Err Val
  | .list (x :: _) => .ok x
  | _ => .error .pyError

/-- Attribute access payload.get(k) on a value that must be a dict. -/
def vGet : Val → String → Except Err Val
  | .dict d, k => .ok (dGet d k)
  | _, _ => .error .pyError

/-- The part of heavy_truck_distance from the received response on:
status check, body decode, results extraction, summary construction. -/
def distance_handle_response (resp : HttpResp) : Except Err Val :=
  if resp.status ≠ 200 then
    .error (.upstreamError resp.status (errorPayload resp))
  else
    match jParse resp.text with
    | none => .error .pyError
    | some data =>
      match data with
      | .dict d =>
        let rv := dGet d "results"
        if ¬ truthy rv then .error .emptyResult
        else do
          let route0 ← firstIndex rv
          let dist ← vGet route0 "distance"
          let distUnits ← vGet route0 "distance_units"
          let time ← vGet route0 "time"
          let toll ← vGet route0 "toll"
          let ferry ← vGet route0 "ferry"
          pure (.dict
            [("distance", dist), ("distance_units", distUnits),
             ("time_seconds", time), ("mode", .str "heavy_truck"),
             ("raw", .dict
               [("properties", dGet d "properties"),
                ("route", .dict
                  [("distance", dist), ("distance_units", distUnits),
                   ("time", time), ("toll", toll), ("ferry", ferry)])])])
      | _ => .error .pyError

/-- routing.py heavy_truck_distance.  The network is a parameter: none
models a transport-level exception from requests.get, some resp a
received response. -/
def heavy_truck_distance (origin_lat origin_lon dest_lat dest_lon : Val)
    (api_key : Option String) (conf : Option String) (net : Option HttpResp) :
    Except Err Val := do
  let olat ← parse_float "origin_lat" origin_lat
  let olon ← parse_float "origin_lon" origin_lon
  let dlat ← parse_float "dest_lat" dest_lat
  let dlon ← parse_float "dest_lon" dest_lon
  let _ ← validate_lat_lon olat olon
  let _ ← validate_lat_lon dlat dlon
  let _key ← get_geoapify_key api_key conf
  match net with
  | none => .error .upstreamUnavailable
  | some resp => distance_handle_response resp

/-- The part of heavy_truck_route_geojson from the received response on. -/
def geojson_handle_response (resp : HttpResp) : Except Err Val :=
  if resp.status ≠ 200 then
    .error (.upstreamError resp.status (errorPayload resp))
  else
    match jParse resp.text with
    | none => .error .pyError
    | some fc =>
      match fc with
      | .dict d =>
        let fv := dGet d "features"
        if ¬ truthy fv then .error .emptyResult
        else do
          let f0 ← firstIndex fv
          let pv ← vGet f0 "properties"
          let props : List (String × Val) ←
            match (if truthy pv then pv else .dict []) with
            | .dict p => .ok p
            | _ => .error .pyError
          pure (.dict
            [("summary", .dict
              [("distance", dGet props "distance"),
               ("distance_units", dGet props "distance_units"),
               ("time_seconds", dGet props "time"),
               ("mode", dGet props "mode"),
               ("units", dGet props "units"),
               ("toll", dGet props "toll")]),
             ("geojson", fc)])
      | _ => .error .pyError

/-- routing.py heavy_truck_route_geojson. -/
def heavy_truck_route_geojson (waypoints : Val)
    (api_key : Option String) (conf : Option String) (net : Option HttpResp) :
    Except Err Val := do
  let _key ← get_geoapify_key api_key conf
  let wl ← normalize_waypoints waypoints
  if wl.length < 2 then .error .insufficientWaypoints
  else
    match net with
    | none => .error .upstreamUnavailable
    | some resp => geojson_handle_response resp

/-! ### geoapify.py: autocomplete -/

/-- Reshape one feature of the autocomplete response:
f["properties"].get(...) for the four surfaced fields. -/
def reshapeFeature : Val → Except Err Val
  | .dict d =>
    match dLookup d "properties" with
    | some (.dict p) =>
      .ok (.dict
        [("label", dGet p "formatted"), ("lat", dGet p "lat"),
         ("lon", dGet p "lon"), ("place_id", dGet p "place_id")])
    | some _ => .error .pyError
    | none => .error .pyError
  | _ => .error .pyError

/-- geoapify.py autocomplete.  The Bool records whether the outbound
HTTP request was issued.  conf is the configured single value; net is
the transport outcome of the request when one is made. -/
def autocomplete (text : Option String) (conf : Option String)
    (net : Option HttpResp) : Bool × Except Err (List Val) :=
  if (text.getD "").length < 3 then (false, .ok [])
  else
    match conf with
    | some key =>
      if key = "" then (false, .error .missingCredential)
      else
        match net with
        | none => (true, .error .pyError)
        | some resp =>
          if 400 ≤ resp.status then (true, .error (.httpStatusError resp.status))
          else
            match jParse resp.text with
            | none => (true, .error .pyError)
            | some data =>
              match data with
              | .dict d =>
                match dLookup d "features" with
                | some (.list fs) =>
                  (true, (fs.take 10).mapM reshapeFeature)
                | some (.str s) =>
                  (true, if s = "" then .ok [] else .error .pyError)
                | some _ => (true, .error .pyError)
                | none => (true, .ok [])
              | _ => (true, .error .pyError)
    | none => (false, .error .missingCredential)

/-! ### The common semantic core: validating a coordinate sequence -/

theorem bindE_err {α β : Type} (e : Err) (f : α → Except Err β) :
    (Except.error e >>= f) = Except.error e := rfl

theorem bindE_ok {α β : Type} (a : α) (f : α → Except Err β) :
    (Except.ok a >>= f) = f a := rfl

theorem pureE {α : Type} (a : α) : (pure a : Except Err α) = Except.ok a := rfl

/-- The latitude/longitude invariant. -/
def InRange (c : ℚ × ℚ) : Prop :=
  (-90 ≤ c.1 ∧ c.1 ≤ 90) ∧ (-180 ≤ c.2 ∧ c.2 ≤ 180)

instance (c : ℚ × ℚ) : Decidable (InRange c) := by
  unfold InRange
  infer_instance

/-- Validate coordinates one by one, in order, keeping them all. -/
def processCoords : List (ℚ × ℚ) → Except Err (List (ℚ × ℚ))
  | [] => .ok []
  | c :: cs => do
    let _ ← validate_lat_lon c.1 c.2
    let rest ← processCoords cs
    pure (c :: rest)

theorem validate_ok_iff (la lo : ℚ) :
    validate_lat_lon la lo = .ok () ↔ InRange (la, lo) := by
  unfold validate_lat_lon InRange
  constructor
  · intro h
    by_cases h1 : -90 ≤ la ∧ la ≤ 90
    · by_cases h2 : -180 ≤ lo ∧ lo ≤ 180
      · exact ⟨h1, h2⟩
      · rw [if_neg (by simpa using h1), if_pos h2] at h
        exact absurd h (by simp)
    · rw [if_pos h1] at h
      exact absurd h (by simp)
  · intro h
    rw [if_neg (by simpa using h.1), if_neg (by simpa using h.2)]

theorem validate_err (la lo : ℚ) (h : ¬ InRange (la, lo)) :
    ∃ m, validate_lat_lon la lo = .error (.outOfRange m) := by
  unfold validate_lat_lon
  unfold InRange at h
  by_cases h1 : -90 ≤ la ∧ la ≤ 90
  · refine ⟨"Longitude must be between -180 and 180.", ?_⟩
    rw [if_neg (by simpa using h1), if_pos (by tauto)]
  · exact ⟨"Latitude must be between -90 and 90.", by rw [if_pos h1]⟩

theorem processCoords_ok (cs : List (ℚ × ℚ)) (h : ∀ c ∈ cs, InRange c) :
    processCoords cs = .ok cs := by
  induction cs with
  | nil => rfl
  | cons c cs ih =>
    unfold processCoords
    rw [(validate_ok_iff c.1 c.2).mpr (h c (by simp)), ih (fun x hx => h x (by simp [hx]))]
    rfl

theorem processCoords_err (cs : List (ℚ × ℚ)) (h : ∃ c ∈ cs, ¬ InRange c) :
    ∃ m, processCoords cs = .error (.outOfRange m) := by
  induction cs with
  | nil => simp at h
  | cons c cs ih =>
    unfold processCoords
    by_cases hc : InRange c
    · have htail : ∃ x ∈ cs, ¬ InRange x := by
        rcases h with ⟨x, hx, hbad⟩
        rcases List.mem_cons.mp hx with rfl | hx2
        · exact absurd hc hbad
        · exact ⟨x, hx2, hbad⟩
      obtain ⟨m, hm⟩ := ih htail
      refine ⟨m, ?_⟩
      rw [(validate_ok_iff c.1 c.2).mpr hc, hm]
      rfl
    · obtain ⟨m, hm⟩ := validate_err c.1 c.2 hc
      exact ⟨m, by rw [hm]; rfl⟩

theorem processCoords_mem_ok {cs ws : List (ℚ × ℚ)}
    (h : processCoords cs = .ok ws) : ws = cs ∧ ∀ c ∈ cs, InRange c := by
  induction cs generalizing ws with
  | nil =>
    unfold processCoords at h
    simp only [Except.ok.injEq] at h
    subst h
    exact ⟨rfl, by simp⟩
  | cons c cs ih =>
    unfold processCoords at h
    rcases hv : validate_lat_lon c.1 c.2 with e | u
    · rw [hv, bindE_err] at h
      exact absurd h (by simp)
    · simp only [hv, bindE_ok] at h
      rcases hr : processCoords cs with e | rest
      · rw [hr, bindE_err] at h
        exact absurd h (by simp)
      · simp only [hr, bindE_ok, pureE, Except.ok.injEq] at h
        obtain ⟨hrest, hall⟩ := ih hr
        subst hrest
        refine ⟨h.symm, ?_⟩
        intro x hx
        rcases List.mem_cons.mp hx with rfl | hx2
        · cases u
          exact (validate_ok_iff x.1 x.2).mp hv
        · exact hall x hx2

/-! ### Splitting, joining and trimming lemmas -/

theorem splitOn_ne_nil (sep : Char) (l : List Char) : splitOn sep l ≠ [] := by
  cases l with
  | nil => simp [splitOn]
  | cons c r =>
    unfold splitOn
    by_cases hc : c = sep
    · simp [hc]
    · rw [if_neg hc]
      rcases h : splitOn sep r with _ | ⟨g, gs⟩ <;> simp

theorem splitOn_sep_free (sep : Char) (l : List Char)
    (h : ∀ c ∈ l, c ≠ sep) : splitOn sep l = [l] := by
  induction l with
  | nil => rfl
  | cons c r ih =>
    unfold splitOn
    rw [if_neg (h c (by simp)), ih (fun x hx => h x (by simp [hx]))]

theorem splitOn_append (sep : Char) (p rest : List Char)
    (h : ∀ c ∈ p, c ≠ sep) :
    splitOn sep (p ++ sep :: rest) = p :: splitOn sep rest := by
  induction p with
  | nil => simp [splitOn]
  | cons c q ih =>
    simp only [List.cons_append]
    conv_lhs => rw [splitOn]
    rw [if_neg (h c (by simp)), ih (fun x hx => h x (by simp [hx]))]

theorem splitOn_joinSep (sep : Char) (parts : List (List Char))
    (hne : parts ≠ [])
    (h : ∀ p ∈ parts, ∀ c ∈ p, c ≠ sep) :
    splitOn sep (joinSep sep parts) = parts := by
  induction parts with
  | nil => exact absurd rfl hne
  | cons p ps ih =>
    cases ps with
    | nil =>
      unfold joinSep
      exact splitOn_sep_free sep p (h p (by simp))
    | cons p2 ps2 =>
      show splitOn sep (p ++ sep :: joinSep sep (p2 :: ps2)) = _
      rw [splitOn_append sep p _ (h p (by simp)),
        ih (by simp) (fun x hx c hc => h x (by simp [hx]) c hc)]

theorem dropWhile_eq_self_of_head (p : Char → Bool) (l : List Char)
    (h : ∀ c, l.head? = some c → p c = false) : l.dropWhile p = l := by
  cases l with
  | nil => rfl
  | cons c r => rw [List.dropWhile_cons, h c rfl]; simp

theorem trimList_eq_self (l : List Char)
    (h : ∀ c ∈ l, isPySpace c = false) : trimList l = l := by
  unfold trimList
  have h1 : l.dropWhile isPySpace = l := by
    apply dropWhile_eq_self_of_head
    intro c hc
    cases l with
    | nil => simp at hc
    | cons x r =>
      simp only [List.head?_cons, Option.some.injEq] at hc
      exact hc ▸ h x (by simp)
  rw [h1]
  have h2 : l.reverse.dropWhile isPySpace = l.reverse := by
    apply dropWhile_eq_self_of_head
    intro c hc
    have hmem : c ∈ l.reverse := by
      cases hrev : l.reverse with
      | nil => rw [hrev] at hc; simp at hc
      | cons x r =>
        rw [hrev] at hc
        simp only [List.head?_cons, Option.some.injEq] at hc
        rw [← hc]
        exact List.mem_cons_self _ _
    exact h c (List.mem_reverse.mp hmem)
  rw [h2, List.reverse_reverse]

/-! ### The delimited representation normalizes to processCoords -/

/-- The canonical delimited rendering of a coordinate list (the form
produced by _build_waypoints_multi). -/
def renderDelim (cs : List (ℚ × ℚ)) : List Char :=
  joinSep '|' (cs.map fun c => renderRatChars c.1 ++ ',' :: renderRatChars c.2)

theorem build_waypoints_multi_eq (ws : List (ℚ × ℚ)) :
    build_waypoints_multi ws = String.mk (renderDelim ws) := rfl

theorem mem_joinSep {sep : Char} {parts : List (List Char)} {c : Char}
    (h : c ∈ joinSep sep parts) : c = sep ∨ ∃ p ∈ parts, c ∈ p := by
  induction parts with
  | nil => simp [joinSep] at h
  | cons p ps ih =>
    cases ps with
    | nil => exact Or.inr ⟨p, by simp, by simpa [joinSep] using h⟩
    | cons p2 ps2 =>
      rw [show joinSep sep (p :: p2 :: ps2) = p ++ sep :: joinSep sep (p2 :: ps2) from rfl] at h
      rcases List.mem_append.mp h with h1 | h1
      · exact Or.inr ⟨p, by simp, h1⟩
      · rcases List.mem_cons.mp h1 with rfl | h2
        · exact Or.inl rfl
        · rcases ih h2 with h3 | ⟨p3, hp3, hc3⟩
          · exact Or.inl h3
          · exact Or.inr ⟨p3, by simp [hp3], hc3⟩

theorem mem_pairChars {a b : ℚ} {c : Char}
    (h : c ∈ renderRatChars a ++ ',' :: renderRatChars b) :
    isGoodChar c = true ∨ c = ',' := by
  rcases List.mem_append.mp h with h1 | h1
  · exact Or.inl (renderRatChars_good a c h1)
  · rcases List.mem_cons.mp h1 with rfl | h2
    · exact Or.inr rfl
    · exact Or.inl (renderRatChars_good b c h2)

theorem mem_renderDelim {cs : List (ℚ × ℚ)} {c : Char}
    (h : c ∈ renderDelim cs) : isGoodChar c = true ∨ c = ',' ∨ c = '|' := by
  rcases mem_joinSep h with h1 | ⟨p, hp, hc⟩
  · exact Or.inr (Or.inr h1)
  · obtain ⟨x, hx, rfl⟩ := List.mem_map.mp hp
    rcases mem_pairChars hc with h2 | h2
    · exact Or.inl h2
    · exact Or.inr (Or.inl h2)

theorem renderDelim_space_free (cs : List (ℚ × ℚ)) :
    ∀ c ∈ renderDelim cs, isPySpace c = false := by
  intro c hc
  rcases mem_renderDelim hc with h | rfl | rfl
  · exact isPySpace_eq_false_of_good c h
  · decide
  · decide

theorem trimList_good (l : List Char) (h : ∀ c ∈ l, isGoodChar c = true) :
    trimList l = l :=
  trimList_eq_self l (fun c hc => isPySpace_eq_false_of_good c (h c hc))

theorem data_mk (l : List Char) : (String.mk l).data = l := rfl

theorem parse_float_render (name : String) (a : ℚ) (ha : IsDec a) :
    parse_float name (.str (String.mk (renderRatChars a))) = .ok a := by
  simp only [parse_float, pyFloat, data_mk]
  rw [trimList_good _ (renderRatChars_good a), parseFloat_renderRat a ha]

theorem processPart_render (a b : ℚ) (ha : IsDec a) (hb : IsDec b) :
    processPart (renderRatChars a ++ ',' :: renderRatChars b) =
      (validate_lat_lon a b).map (fun _ => (a, b)) := by
  have hga := renderRatChars_good a
  have hgb := renderRatChars_good b
  have hsplit : splitOn ',' (renderRatChars a ++ ',' :: renderRatChars b) =
      [renderRatChars a, renderRatChars b] := by
    rw [splitOn_append ',' _ _ (fun c hc => (good_ne_sep c (hga c hc)).2.1),
      splitOn_sep_free ',' _ (fun c hc => (good_ne_sep c (hgb c hc)).2.1)]
  unfold processPart
  rw [hsplit]
  simp only [List.map_cons, List.map_nil, trimList_good _ hga, trimList_good _ hgb]
  simp only [parse_float_render "lat" a ha, parse_float_render "lon" b hb, bindE_ok]
  rcases hv : validate_lat_lon a b with e | u
  · rw [bindE_err]
    rfl
  · rw [bindE_ok]
    rfl

theorem processParts_render (cs : List (ℚ × ℚ))
    (h : ∀ c ∈ cs, IsDec c.1 ∧ IsDec c.2) :
    processParts (cs.map (fun c => renderRatChars c.1 ++ ',' :: renderRatChars c.2)) =
      processCoords cs := by
  induction cs with
  | nil => rfl
  | cons c cs ih =>
    simp only [List.map_cons]
    unfold processParts processCoords
    rw [processPart_render c.1 c.2 (h c (by simp)).1 (h c (by simp)).2,
      ih (fun x hx => h x (by simp [hx]))]
    rcases hv : validate_lat_lon c.1 c.2 with e | u
    · rfl
    · rfl

theorem renderRatChars_cons (q : ℚ) :
    ∃ x xs, renderRatChars q = x :: xs ∧ isGoodChar x = true := by
  have hlen := renderRatChars_length q
  rcases hr : renderRatChars q with _ | ⟨x, xs⟩
  · rw [hr] at hlen; simp at hlen
  · exact ⟨x, xs, rfl, renderRatChars_good q x (by rw [hr]; simp)⟩

theorem normalize_renderDelim (cs : List (ℚ × ℚ))
    (h : ∀ c ∈ cs, IsDec c.1 ∧ IsDec c.2) :
    normalize_waypoints (.str (String.mk (renderDelim cs))) = processCoords cs := by
  cases cs with
  | nil => rfl
  | cons c0 cs0 =>
    obtain ⟨x, xs, hx, hxg⟩ := renderRatChars_cons c0.1
    have hhead : (renderDelim (c0 :: cs0)).head? = some x := by
      unfold renderDelim
      simp only [List.map_cons]
      cases hm : cs0.map (fun c => renderRatChars c.1 ++ ',' :: renderRatChars c.2) with
      | nil =>
        show (joinSep '|' [renderRatChars c0.1 ++ ',' :: renderRatChars c0.2]).head? = _
        unfold joinSep
        rw [hx]
        rfl
      | cons p ps =>
        show (joinSep '|' ((renderRatChars c0.1 ++ ',' :: renderRatChars c0.2) :: p :: ps)).head? = _
        unfold joinSep
        rw [hx]
        rfl
    have hne : renderDelim (c0 :: cs0) ≠ [] := by
      intro hnil
      rw [hnil] at hhead
      simp at hhead
    have htrim : trimList (renderDelim (c0 :: cs0)) = renderDelim (c0 :: cs0) :=
      trimList_eq_self _ (renderDelim_space_free _)
    have hxne : x ≠ '[' ∧ x ≠ '{' := ⟨(good_ne_sep x hxg).2.2.1, (good_ne_sep x hxg).2.2.2.1⟩
    show normalize_waypoints (.str (String.mk (renderDelim (c0 :: cs0)))) = _
    simp only [normalize_waypoints, data_mk]
    rw [htrim, if_neg hne, if_neg (by
        rw [hhead]
        simp only [Option.some.injEq]
        push_neg
        exact hxne)]
    unfold normDelimited
    have hparts : splitOn '|' (renderDelim (c0 :: cs0)) =
        (c0 :: cs0).map (fun c => renderRatChars c.1 ++ ',' :: renderRatChars c.2) := by
      unfold renderDelim
      apply splitOn_joinSep
      · simp
      · intro p hp c hc
        obtain ⟨y, hy, rfl⟩ := List.mem_map.mp hp
        rcases mem_pairChars hc with h1 | rfl
        · exact (good_ne_sep c h1).1
        · decide
    rw [hparts]
    have hmap : ((c0 :: cs0).map (fun c => renderRatChars c.1 ++ ',' :: renderRatChars c.2)).map
        trimList = (c0 :: cs0).map (fun c => renderRatChars c.1 ++ ',' :: renderRatChars c.2) := by
      apply List.map_congr_left ?_ |>.trans (List.map_id _)
      intro p hp
      obtain ⟨y, hy, rfl⟩ := List.mem_map.mp hp
      apply trimList_eq_self
      intro c hc
      rcases mem_pairChars hc with h1 | rfl
      · exact isPySpace_eq_false_of_good c h1
      · decide
    rw [hmap]
    have hfil : ((c0 :: cs0).map (fun c => renderRatChars c.1 ++ ',' :: renderRatChars c.2)).filter
        (fun p => p ≠ []) = (c0 :: cs0).map (fun c => renderRatChars c.1 ++ ',' :: renderRatChars c.2) := by
      apply List.filter_eq_self.mpr
      intro p hp
      obtain ⟨y, hy, rfl⟩ := List.mem_map.mp hp
      obtain ⟨z, zs, hz, _⟩ := renderRatChars_cons y.1
      rw [hz]
      simp
    rw [hfil]
    exact processParts_render (c0 :: cs0) h

/-! ### Structured representations normalize to processCoords -/

/-- A coordinate as a two-element numeric pair. -/
def pairVal (c : ℚ × ℚ) : Val := .list [.num c.1, .num c.2]

/-- A coordinate as a labelled mapping. -/
def dictVal (c : ℚ × ℚ) : Val := .dict [("lat", .num c.1), ("lon", .num c.2)]

theorem processItem_pair (c : ℚ × ℚ) :
    processItem (pairVal c) = (validate_lat_lon c.1 c.2).map (fun _ => c) := by
  simp only [pairVal, processItem, parse_float, pyFloat, bindE_ok]
  rcases validate_lat_lon c.1 c.2 with e | u
  · rfl
  · rfl

theorem processItem_dict (c : ℚ × ℚ) :
    processItem (dictVal c) = (validate_lat_lon c.1 c.2).map (fun _ => c) := by
  have h1 : dGet [("lat", Val.num c.1), ("lon", Val.num c.2)] "lat" = .num c.1 := rfl
  have h2 : dGet [("lat", Val.num c.1), ("lon", Val.num c.2)] "lon" = .num c.2 := rfl
  simp only [dictVal, processItem, h1, h2, parse_float, pyFloat, bindE_ok]
  rcases validate_lat_lon c.1 c.2 with e | u
  · rfl
  · rfl

theorem processItems_map (cs : List (ℚ × ℚ)) (f : (ℚ × ℚ) → Val)
    (hf : ∀ c ∈ cs, processItem (f c) = (validate_lat_lon c.1 c.2).map (fun _ => c)) :
    processItems (cs.map f) = processCoords cs := by
  induction cs with
  | nil => rfl
  | cons c cs ih =>
    simp only [List.map_cons]
    unfold processItems processCoords
    rw [hf c (by simp), ih (fun x hx => hf x (by simp [hx]))]
    rcases validate_lat_lon c.1 c.2 with e | u
    · rfl
    · rfl

theorem normalize_pairs (cs : List (ℚ × ℚ)) :
    normalize_waypoints (.list (cs.map pairVal)) = processCoords cs := by
  rw [show normalize_waypoints (.list (cs.map pairVal)) =
    processItems (cs.map pairVal) from rfl]
  exact processItems_map cs pairVal (fun c _ => processItem_pair c)

theorem normalize_dicts (cs : List (ℚ × ℚ)) :
    normalize_waypoints (.list (cs.map dictVal)) = processCoords cs := by
  rw [show normalize_waypoints (.list (cs.map dictVal)) =
    processItems (cs.map dictVal) from rfl]
  exact processItems_map cs dictVal (fun c _ => processItem_dict c)

theorem normalize_single_dict (a b : ℚ) :
    normalize_waypoints (.dict [("lat", .num a), ("lon", .num b)]) =
      (validate_lat_lon a b).map (fun _ => [(a, b)]) := by
  have h1 : dGet [("lat", Val.num a), ("lon", Val.num b)] "lat" = .num a := rfl
  have h2 : dGet [("lat", Val.num a), ("lon", Val.num b)] "lon" = .num b := rfl
  rw [show normalize_waypoints (.dict [("lat", .num a), ("lon", .num b)]) =
    normalizeStructured (.dict [("lat", .num a), ("lon", .num b)]) from rfl]
  simp only [normalizeStructured, h1, h2, parse_float, pyFloat, bindE_ok]
  rcases validate_lat_lon a b with e | u
  · rfl
  · rfl

/-! ### The JSON-encoded representation normalizes to processCoords -/

/-- The canonical JSON rendering of one coordinate pair. -/
def pairJson (c : ℚ × ℚ) : List Char :=
  '[' :: renderRatChars c.1 ++ ',' :: renderRatChars c.2 ++ [']']

/-- The canonical JSON rendering of a coordinate list. -/
def renderJsonPairs (cs : List (ℚ × ℚ)) : List Char :=
  '[' :: (joinSep ',' (cs.map pairJson) ++ [']'])

/-- Rendered pair tails inside a JSON array. -/
def tailChars : List (ℚ × ℚ) → List Char
  | [] => []
  | c :: cs => ',' :: (pairJson c ++ tailChars cs)

theorem isNumChar_of_good (c : Char) (h : isGoodChar c = true) : isNumChar c = true := by
  simp only [isGoodChar, Bool.or_eq_true] at h
  simp only [isNumChar, Bool.or_eq_true]
  rcases h with (h | h) | h
  · exact Or.inl (Or.inl (Or.inl (Or.inl (Or.inl h))))
  · exact Or.inl (Or.inl (Or.inl (Or.inl (Or.inr h))))
  · exact Or.inl (Or.inl (Or.inr h))

theorem good_ne_letter (c : Char) (h : isGoodChar c = true) :
    c ≠ 't' ∧ c ≠ 'f' ∧ c ≠ 'n' := by
  refine ⟨?_, ?_, ?_⟩ <;> rintro rfl <;> revert h <;> decide

theorem takeWhile_append_all {p : Char → Bool} (l rest : List Char)
    (h : ∀ c ∈ l, p c = true) (hr : ∀ c, rest.head? = some c → p c = false) :
    (l ++ rest).takeWhile p = l ∧ (l ++ rest).dropWhile p = rest := by
  induction l with
  | nil =>
    simp only [List.nil_append]
    cases rest with
    | nil => exact ⟨rfl, rfl⟩
    | cons c r =>
      rw [List.takeWhile_cons, List.dropWhile_cons, hr c rfl]
      exact ⟨rfl, by simp⟩
  | cons c l ih =>
    simp only [List.cons_append, List.takeWhile_cons, List.dropWhile_cons, h c (by simp)]
    obtain ⟨h1, h2⟩ := ih (fun x hx => h x (by simp [hx]))
    exact ⟨by simp [h1], by simp [h2]⟩

theorem dropWhile_cons_false {p : Char → Bool} (c : Char) (r : List Char)
    (h : p c = false) : (c :: r).dropWhile p = c :: r := by
  rw [List.dropWhile_cons, h]
  simp

set_option maxHeartbeats 1000000 in
theorem jVal_num (f : ℕ) (q : ℚ) (rest : List Char) (hq : IsDec q)
    (hr : ∀ c, rest.head? = some c → isNumChar c = false) :
    jVal (f + 1) (renderRatChars q ++ rest) = some (.num q, rest) := by
  obtain ⟨x, xs, hx, hxg⟩ := renderRatChars_cons q
  have hgood := renderRatChars_good q
  obtain ⟨htake, hdrop⟩ := takeWhile_append_all (p := isNumChar) (renderRatChars q) rest
    (fun c hc => isNumChar_of_good c (hgood c hc)) hr
  have hnospace : ((renderRatChars q ++ rest)).dropWhile isPySpace =
      renderRatChars q ++ rest := by
    rw [hx, List.cons_append]
    exact dropWhile_cons_false x _ (isPySpace_eq_false_of_good x hxg)
  simp only [jVal]
  rw [hnospace]
  rw [hx, List.cons_append]
  have hne := good_ne_sep x hxg
  have hnl := good_ne_letter x hxg
  split
  · rename_i heq
    injection heq with h1 _
    exact absurd h1 hne.2.2.2.1
  · rename_i heq
    injection heq with h1 _
    exact absurd h1 hne.2.2.1
  · rename_i heq
    injection heq with h1 _
    exact absurd h1 hne.2.2.2.2.2
  · rename_i heq
    injection heq with h1 _
    exact absurd h1 hnl.1
  · rename_i heq
    injection heq with h1 _
    exact absurd h1 hnl.2.1
  · rename_i heq
    injection heq with h1 _
    exact absurd h1 hnl.2.2
  · rw [← List.cons_append, ← hx, htake, hdrop, parseFloat_renderRat q hq]

theorem jVal_bracket (f : ℕ) (l : List Char) :
    jVal (f + 1) ('[' :: l) = jArr f (l.dropWhile isPySpace) := by
  simp only [jVal]
  rw [dropWhile_cons_false '[' _ (by decide)]
  rfl

theorem jArr_close (f : ℕ) (l : List Char) :
    jArr (f + 1) (']' :: l) = some (.list [], l) := by
  simp only [jArr]

theorem jArr_cons_ne (f : ℕ) (x : Char) (l : List Char) (hx : x ≠ ']') :
    jArr (f + 1) (x :: l) =
      match jVal f (x :: l) with
      | some p =>
        match jArrTail f p.2 with
        | some t => some (.list (p.1 :: t.1), t.2)
        | none => none
      | none => none := by
  simp only [jArr]
  split
  · rename_i heq
    injection heq with heq1 _
    exact absurd heq1 hx
  · rfl

theorem jArrTail_close (f : ℕ) (l : List Char) :
    jArrTail (f + 1) (']' :: l) = some ([], l) := by
  simp only [jArrTail]
  rw [dropWhile_cons_false ']' _ (by decide)]
  rfl

theorem jArrTail_comma (f : ℕ) (l : List Char) :
    jArrTail (f + 1) (',' :: l) =
      match jVal f l with
      | some p =>
        match jArrTail f p.2 with
        | some t => some (p.1 :: t.1, t.2)
        | none => none
      | none => none := by
  simp only [jArrTail]
  rw [dropWhile_cons_false ',' _ (by decide)]
  rfl

theorem jVal_pair (f : ℕ) (c : ℚ × ℚ) (rest : List Char)
    (h1 : IsDec c.1) (h2 : IsDec c.2) :
    jVal (f + 4) (pairJson c ++ rest) = some (pairVal c, rest) := by
  obtain ⟨x, xs, hx, hxg⟩ := renderRatChars_cons c.1
  have hne := good_ne_sep x hxg
  have hshape : pairJson c ++ rest =
      '[' :: (renderRatChars c.1 ++ ',' :: (renderRatChars c.2 ++ ']' :: rest)) := by
    simp [pairJson, List.append_assoc]
  rw [hshape, show f + 4 = f + 3 + 1 from rfl, jVal_bracket]
  rw [hx, List.cons_append,
    dropWhile_cons_false x _ (isPySpace_eq_false_of_good x hxg)]
  rw [show f + 3 = f + 2 + 1 from rfl, jArr_cons_ne _ x _ hne.2.2.2.2.1]
  rw [← List.cons_append, ← hx]
  rw [show f + 2 = f + 1 + 1 from rfl,
    jVal_num (f + 1) c.1 _ h1 (by intro c hc; simp at hc; rw [← hc]; decide)]
  simp only []
  rw [jArrTail_comma]
  rw [jVal_num f c.2 _ h2 (by intro c hc; simp at hc; rw [← hc]; decide)]
  simp only []
  rw [jArrTail_close]
  rfl

theorem jArrTail_pairs (cs : List (ℚ × ℚ)) (rest : List Char)
    (h : ∀ c ∈ cs, IsDec c.1 ∧ IsDec c.2) :
    ∀ f : ℕ, jArrTail (f + cs.length + 5) (tailChars cs ++ ']' :: rest) =
      some (cs.map pairVal, rest) := by
  induction cs with
  | nil =>
    intro f
    show jArrTail (f + 0 + 5) (']' :: rest) = _
    rw [show f + 0 + 5 = f + 4 + 1 from rfl, jArrTail_close]
    rfl
  | cons c cs ih =>
    intro f
    show jArrTail (f + (cs.length + 1) + 5)
      ((',' :: (pairJson c ++ tailChars cs)) ++ ']' :: rest) = _
    rw [show (',' :: (pairJson c ++ tailChars cs)) ++ ']' :: rest
        = ',' :: (pairJson c ++ (tailChars cs ++ ']' :: rest)) by simp]
    rw [show f + (cs.length + 1) + 5 = (f + cs.length + 5) + 1 from by omega,
      jArrTail_comma]
    rw [show f + cs.length + 5 = (f + cs.length + 1) + 4 from by omega]
    rw [jVal_pair (f + cs.length + 1) c _ (h c (by simp)).1 (h c (by simp)).2]
    simp only []
    rw [show f + cs.length + 1 + 4 = f + cs.length + 5 from by omega,
      ih (fun x hx => h x (by simp [hx])) f]
    rfl

theorem joinSep_pairJson (c : ℚ × ℚ) (cs : List (ℚ × ℚ)) :
    joinSep ',' ((c :: cs).map pairJson) = pairJson c ++ tailChars cs := by
  induction cs generalizing c with
  | nil => simp [joinSep, tailChars]
  | cons c2 cs2 ih =>
    show joinSep ',' (pairJson c :: pairJson c2 :: cs2.map pairJson) = _
    rw [show joinSep ',' (pairJson c :: pairJson c2 :: cs2.map pairJson)
        = pairJson c ++ ',' :: joinSep ',' (pairJson c2 :: cs2.map pairJson) from rfl]
    rw [show (pairJson c2 :: cs2.map pairJson) = (c2 :: cs2).map pairJson from rfl, ih c2]
    rfl

theorem jVal_pairsList (cs : List (ℚ × ℚ)) (rest : List Char)
    (h : ∀ c ∈ cs, IsDec c.1 ∧ IsDec c.2) (f : ℕ) :
    jVal (f + cs.length + 6) (renderJsonPairs cs ++ rest) =
      some (.list (cs.map pairVal), rest) := by
  cases cs with
  | nil =>
    rw [show renderJsonPairs [] ++ rest = '[' :: ']' :: rest by simp [renderJsonPairs, joinSep]]
    rw [show f + List.length ([] : List (ℚ × ℚ)) + 6 = (f + 5) + 1 from rfl, jVal_bracket]
    rw [dropWhile_cons_false ']' _ (by decide)]
    rw [show f + 5 = f + 4 + 1 from rfl, jArr_close]
    rfl
  | cons c cs2 =>
    obtain ⟨x, xs, hx, hxg⟩ := renderRatChars_cons c.1
    have hshape : renderJsonPairs (c :: cs2) ++ rest =
        '[' :: (pairJson c ++ (tailChars cs2 ++ ']' :: rest)) := by
      unfold renderJsonPairs
      rw [joinSep_pairJson]
      simp [List.append_assoc]
    rw [hshape]
    rw [show f + (c :: cs2).length + 6 = (f + cs2.length + 6) + 1 from by
      simp only [List.length_cons]; omega, jVal_bracket]
    have hpair : pairJson c ++ (tailChars cs2 ++ ']' :: rest) =
        '[' :: (renderRatChars c.1 ++ ',' :: (renderRatChars c.2 ++ ']' :: (tailChars cs2 ++ ']' :: rest))) := by
      simp [pairJson, List.append_assoc]
    rw [hpair, dropWhile_cons_false '[' _ (by decide)]
    rw [show f + cs2.length + 6 = (f + cs2.length + 5) + 1 from rfl,
      jArr_cons_ne _ '[' _ (by decide)]
    rw [← hpair]
    rw [show f + cs2.length + 5 = (f + cs2.length + 1) + 4 from by omega]
    rw [jVal_pair (f + cs2.length + 1) c _ (h c (by simp)).1 (h c (by simp)).2]
    simp only []
    rw [show f + cs2.length + 1 + 4 = f + cs2.length + 5 from by omega,
      jArrTail_pairs cs2 rest (fun y hy => h y (by simp [hy])) f]
    rfl

theorem pairJson_length (c : ℚ × ℚ) : 9 ≤ (pairJson c).length := by
  have h1 := renderRatChars_length c.1
  have h2 := renderRatChars_length c.2
  simp only [pairJson, List.length_cons, List.length_append]
  omega

theorem tailChars_length (cs : List (ℚ × ℚ)) : cs.length ≤ (tailChars cs).length := by
  induction cs with
  | nil => simp [tailChars]
  | cons c cs ih =>
    have := pairJson_length c
    simp only [tailChars, List.length_cons, List.length_append]
    omega

theorem jParseChars_render (cs : List (ℚ × ℚ))
    (h : ∀ c ∈ cs, IsDec c.1 ∧ IsDec c.2) :
    jParseChars (renderJsonPairs cs) = some (.list (cs.map pairVal)) := by
  cases cs with
  | nil => rfl
  | cons c cs2 =>
    have hlen : (c :: cs2).length + 5 ≤ (renderJsonPairs (c :: cs2)).length := by
      have h1 := pairJson_length c
      have h2 := tailChars_length cs2
      have hj : renderJsonPairs (c :: cs2) =
          '[' :: ((pairJson c ++ tailChars cs2) ++ [']']) := by
        unfold renderJsonPairs
        rw [joinSep_pairJson]
      rw [hj]
      simp only [List.length_cons, List.length_append]
      simp
      omega
    unfold jParseChars
    rw [show (renderJsonPairs (c :: cs2)).length + 1 =
        ((renderJsonPairs (c :: cs2)).length + 1 - ((c :: cs2).length + 6))
          + (c :: cs2).length + 6 from by omega]
    rw [← List.append_nil (renderJsonPairs (c :: cs2))]
    rw [jVal_pairsList (c :: cs2) [] h _]
    rfl

theorem pairJson_space_free (c : ℚ × ℚ) :
    ∀ x ∈ pairJson c, isPySpace x = false := by
  intro x hx
  have hx2 : x = '[' ∨ x ∈ renderRatChars c.1 ∨ x = ',' ∨ x ∈ renderRatChars c.2 ∨ x = ']' := by
    simp only [pairJson, List.mem_cons, List.mem_append, List.mem_singleton] at hx
    tauto
  rcases hx2 with rfl | hx2 | rfl | hx2 | rfl
  · decide
  · exact isPySpace_eq_false_of_good x (renderRatChars_good c.1 x hx2)
  · decide
  · exact isPySpace_eq_false_of_good x (renderRatChars_good c.2 x hx2)
  · decide

theorem renderJsonPairs_space_free (cs : List (ℚ × ℚ)) :
    ∀ x ∈ renderJsonPairs cs, isPySpace x = false := by
  intro x hx
  have hx2 : x = '[' ∨ x = ']' ∨ x ∈ joinSep ',' (cs.map pairJson) := by
    simp only [renderJsonPairs, List.mem_cons, List.mem_append, List.mem_singleton] at hx
    tauto
  rcases hx2 with rfl | rfl | hx2
  · decide
  · decide
  · rcases mem_joinSep hx2 with rfl | ⟨p, hp, hxp⟩
    · decide
    · obtain ⟨y, hy, rfl⟩ := List.mem_map.mp hp
      exact pairJson_space_free y x hxp

theorem normalize_renderJson (cs : List (ℚ × ℚ))
    (h : ∀ c ∈ cs, IsDec c.1 ∧ IsDec c.2) :
    normalize_waypoints (.str (String.mk (renderJsonPairs cs))) = processCoords cs := by
  have htrim : trimList (renderJsonPairs cs) = renderJsonPairs cs :=
    trimList_eq_self _ (renderJsonPairs_space_free cs)
  simp only [normalize_waypoints, data_mk]
  rw [htrim, if_neg (by simp [renderJsonPairs]),
    if_pos (Or.inl (by simp [renderJsonPairs]))]
  rw [jParseChars_render cs h]
  show processItems (cs.map pairVal) = processCoords cs
  exact processItems_map cs pairVal (fun c _ => processItem_pair c)

/-! ### Every coordinate a successful normalization returns is in range -/

theorem coordStep_ok_range {la lo : ℚ} {c : ℚ × ℚ}
    (h : (do
      let la2 ← Except.ok (ε := Err) la
      let lo2 ← Except.ok (ε := Err) lo
      let _ ← validate_lat_lon la2 lo2
      pure (la2, lo2)) = .ok c) : InRange c := by
  simp only [bindE_ok] at h
  rcases hv : validate_lat_lon la lo with e | u
  · rw [hv, bindE_err] at h
    exact absurd h (by simp)
  · rw [hv, bindE_ok, pureE] at h
    simp only [Except.ok.injEq] at h
    subst h
    cases u
    exact (validate_ok_iff la lo).mp hv

theorem processPart_ok_range {p : List Char} {c : ℚ × ℚ}
    (h : processPart p = .ok c) : InRange c := by
  unfold processPart at h
  rcases hm : (splitOn ',' p).map trimList with _ | ⟨latS, _ | ⟨lonS, _ | _⟩⟩ <;>
    rw [hm] at h
  · exact absurd h (by simp)
  · exact absurd h (by simp)
  · dsimp only at h
    rcases hla : parse_float "lat" (.str (String.mk latS)) with e | la
    · rw [hla, bindE_err] at h
      exact absurd h (by simp)
    · rcases hlo : parse_float "lon" (.str (String.mk lonS)) with e | lo
      · rw [hla, bindE_ok, hlo, bindE_err] at h
        exact absurd h (by simp)
      · rw [hla, hlo] at h
        exact coordStep_ok_range h
  · exact absurd h (by simp)

theorem processParts_ok_range {ps : List (List Char)} {ws : List (ℚ × ℚ)}
    (h : processParts ps = .ok ws) : ∀ c ∈ ws, InRange c := by
  induction ps generalizing ws with
  | nil =>
    unfold processParts at h
    simp only [Except.ok.injEq] at h
    subst h
    simp
  | cons p ps ih =>
    unfold processParts at h
    rcases hp : processPart p with e | c
    · rw [hp, bindE_err] at h
      exact absurd h (by simp)
    · rw [hp, bindE_ok] at h
      rcases hr : processParts ps with e | rest
      · rw [hr, bindE_err] at h
        exact absurd h (by simp)
      · rw [hr, bindE_ok, pureE] at h
        simp only [Except.ok.injEq] at h
        subst h
        intro x hx
        rcases List.mem_cons.mp hx with rfl | hx2
        · exact processPart_ok_range hp
        · exact ih hr x hx2

theorem processItem_ok_range {v : Val} {c : ℚ × ℚ}
    (h : processItem v = .ok c) : InRange c := by
  rcases v with _ | b | q | s | items | d <;> unfold processItem at h <;> dsimp only at h
  · exact absurd h (by simp)
  · exact absurd h (by simp)
  · exact absurd h (by simp)
  · rcases hs : s.data with _ | ⟨c1, _ | ⟨c2, r⟩⟩ <;> rw [hs] at h <;> dsimp only at h
    · exact absurd h (by simp)
    · rcases hp : parse_float "lat" (.str (String.mk [c1])) with e | la <;>
        rw [hp] at h
      · rw [bindE_err] at h
        exact absurd h (by simp)
      · rw [bindE_ok] at h
        exact absurd h (by simp)
    · rcases hla : parse_float "lat" (.str (String.mk [c1])) with e | la
      · rw [hla, bindE_err] at h
        exact absurd h (by simp)
      · rcases hlo : parse_float "lon" (.str (String.mk [c2])) with e | lo
        · rw [hla, bindE_ok, hlo, bindE_err] at h
          exact absurd h (by simp)
        · rw [hla, hlo] at h
          exact coordStep_ok_range h
  · rcases items with _ | ⟨a, _ | ⟨b2, r⟩⟩ <;> dsimp only at h
    · exact absurd h (by simp)
    · rcases hp : parse_float "lat" a with e | la <;> rw [hp] at h
      · rw [bindE_err] at h
        exact absurd h (by simp)
      · rw [bindE_ok] at h
        exact absurd h (by simp)
    · rcases hla : parse_float "lat" a with e | la
      · rw [hla, bindE_err] at h
        exact absurd h (by simp)
      · rcases hlo : parse_float "lon" b2 with e | lo
        · rw [hla, bindE_ok, hlo, bindE_err] at h
          exact absurd h (by simp)
        · rw [hla, hlo] at h
          exact coordStep_ok_range h
  · rcases hla : parse_float "lat" (dGet d "lat") with e | la
    · rw [hla, bindE_err] at h
      exact absurd h (by simp)
    · rcases hlo : parse_float "lon" (dGet d "lon") with e | lo
      · rw [hla, bindE_ok, hlo, bindE_err] at h
        exact absurd h (by simp)
      · rw [hla, hlo] at h
        exact coordStep_ok_range h

theorem processItems_ok_range {items : List Val} {ws : List (ℚ × ℚ)}
    (h : processItems items = .ok ws) : ∀ c ∈ ws, InRange c := by
  induction items generalizing ws with
  | nil =>
    unfold processItems at h
    simp only [Except.ok.injEq] at h
    subst h
    simp
  | cons v vs ih =>
    unfold processItems at h
    rcases hv : processItem v with e | c
    · rw [hv, bindE_err] at h
      exact absurd h (by simp)
    · rw [hv, bindE_ok] at h
      rcases hr : processItems vs with e | rest
      · rw [hr, bindE_err] at h
        exact absurd h (by simp)
      · rw [hr, bindE_ok, pureE] at h
        simp only [Except.ok.injEq] at h
        subst h
        intro x hx
        rcases List.mem_cons.mp hx with rfl | hx2
        · exact processItem_ok_range hv
        · exact ih hr x hx2

theorem normalizeStructured_ok_range {v : Val} {ws : List (ℚ × ℚ)}
    (h : normalizeStructured v = .ok ws) : ∀ c ∈ ws, InRange c := by
  rcases v with _ | b | q | s | items | d <;> unfold normalizeStructured at h <;>
    dsimp only at h
  · simp only [Except.ok.injEq] at h
    subst h
    simp
  · rcases b with _ | _
    · simp only [Bool.false_eq_true, if_false, Except.ok.injEq] at h
      subst h
      simp
    · simp only [if_true] at h
      exact absurd h (by simp)
  · by_cases hq : q = 0
    · rw [if_pos hq] at h
      simp only [Except.ok.injEq] at h
      subst h
      simp
    · rw [if_neg hq] at h
      exact absurd h (by simp)
  · by_cases hs : s = ""
    · rw [if_pos hs] at h
      simp only [Except.ok.injEq] at h
      subst h
      simp
    · rw [if_neg hs] at h
      exact processItems_ok_range h
  · exact processItems_ok_range h
  · rcases hla : parse_float "lat" (dGet d "lat") with e | la
    · rw [hla, bindE_err] at h
      exact absurd h (by simp)
    · rcases hlo : parse_float "lon" (dGet d "lon") with e | lo
      · rw [hla, bindE_ok, hlo, bindE_err] at h
        exact absurd h (by simp)
      · rw [hla, hlo] at h
        simp only [bindE_ok] at h
        rcases hv : validate_lat_lon la lo with e | u
        · rw [hv, bindE_err] at h
          exact absurd h (by simp)
        · rw [hv, bindE_ok, pureE] at h
          simp only [Except.ok.injEq] at h
          subst h
          intro x hx
          rcases List.mem_singleton.mp hx with rfl
          cases u
          exact (validate_ok_iff la lo).mp hv

theorem normalize_ok_range {w : Val} {ws : List (ℚ × ℚ)}
    (h : normalize_waypoints w = .ok ws) : ∀ c ∈ ws, InRange c := by
  rcases w with _ | b | q | s | items | d <;> unfold normalize_waypoints at h <;>
    dsimp only at h
  · simp only [Except.ok.injEq] at h
    subst h
    simp
  · exact normalizeStructured_ok_range h
  · exact normalizeStructured_ok_range h
  · by_cases he : trimList s.data = []
    · rw [if_pos he] at h
      simp only [Except.ok.injEq] at h
      subst h
      simp
    · rw [if_neg he] at h
      by_cases hb : (trimList s.data).head? = some '[' ∨ (trimList s.data).head? = some '{'
      · rw [if_pos hb] at h
        rcases hj : jParseChars (trimList s.data) with _ | v <;> rw [hj] at h
        · exact absurd h (by simp)
        · exact normalizeStructured_ok_range h
      · rw [if_neg hb] at h
        exact processParts_ok_range h
  · exact normalizeStructured_ok_range h
  · exact normalizeStructured_ok_range h

/-! ### Fail-fast and format-error lemmas -/

theorem processParts_prefix_error (ps₁ : List (List Char)) (p : List Char)
    (ps₂ : List (List Char)) (e : Err)
    (hok : ∀ q ∈ ps₁, ∃ c, processPart q = .ok c)
    (he : processPart p = .error e) :
    processParts (ps₁ ++ p :: ps₂) = .error e := by
  induction ps₁ with
  | nil =>
    rw [List.nil_append]
    unfold processParts
    rw [he, bindE_err]
  | cons q qs ih =>
    obtain ⟨c, hc⟩ := hok q (by simp)
    rw [List.cons_append]
    unfold processParts
    rw [hc, bindE_ok, ih (fun x hx => hok x (by simp [hx])), bindE_err]

theorem processPart_not_two (p : List Char) (h : (splitOn ',' p).length ≠ 2) :
    processPart p = .error (.invalidFormat (String.mk p)) := by
  unfold processPart
  have hlen : ((splitOn ',' p).map trimList).length ≠ 2 := by
    rw [List.length_map]
    exact h
  rcases hm : (splitOn ',' p).map trimList with _ | ⟨a, _ | ⟨b, _ | _⟩⟩
  · rfl
  · rfl
  · rw [hm] at hlen
    simp at hlen
  · rfl

/-! ### Claims -/

/-- Claim C1: for every waypoint set, the four equivalent accepted
representations (delimited string, JSON-encoded string, list of numeric
pairs, list of lat/lon mappings) are normalized by _normalize_waypoints
to identical ordered coordinate sequences.  Coordinates are restricted
to decimal-representable rationals, which is exactly the image of the
Python float type in this model. -/
theorem c1_representations_agree (cs : List (ℚ × ℚ))
    (h : ∀ c ∈ cs, IsDec c.1 ∧ IsDec c.2) :
    normalize_waypoints (.str (build_waypoints_multi cs)) =
        normalize_waypoints (.str (String.mk (renderJsonPairs cs))) ∧
      normalize_waypoints (.str (String.mk (renderJsonPairs cs))) =
        normalize_waypoints (.list (cs.map pairVal)) ∧
      normalize_waypoints (.list (cs.map pairVal)) =
        normalize_waypoints (.list (cs.map dictVal)) := by
  rw [build_waypoints_multi_eq, normalize_renderDelim cs h, normalize_renderJson cs h,
    normalize_pairs, normalize_dicts]
  exact ⟨rfl, rfl, rfl⟩

/-- Witness for C1 at the waypoint set of the spec scenario, together
with the scenario itself: "12.9,77.5|13.0,77.6" normalizes to
[(12.9,77.5),(13.0,77.6)]. -/
theorem c1_representations_agree_witness :
    (∀ c ∈ [((12.9 : ℚ), (77.5 : ℚ)), (13.0, 77.6)], IsDec c.1 ∧ IsDec c.2) ∧
    (normalize_waypoints (.str (build_waypoints_multi [((12.9 : ℚ), (77.5 : ℚ)), (13.0, 77.6)])) =
        normalize_waypoints (.str (String.mk (renderJsonPairs [((12.9 : ℚ), (77.5 : ℚ)), (13.0, 77.6)]))) ∧
      normalize_waypoints (.str (String.mk (renderJsonPairs [((12.9 : ℚ), (77.5 : ℚ)), (13.0, 77.6)]))) =
        normalize_waypoints (.list ([((12.9 : ℚ), (77.5 : ℚ)), (13.0, 77.6)].map pairVal)) ∧
      normalize_waypoints (.list ([((12.9 : ℚ), (77.5 : ℚ)), (13.0, 77.6)].map pairVal)) =
        normalize_waypoints (.list ([((12.9 : ℚ), (77.5 : ℚ)), (13.0, 77.6)].map dictVal))) ∧
    normalize_waypoints (.str "12.9,77.5|13.0,77.6") = .ok [(12.9, 77.5), (13.0, 77.6)] :=
  ⟨by with_unfolding_all decide,
   c1_representations_agree _ (by with_unfolding_all decide),
   by with_unfolding_all rfl⟩

/-- Claim C2: feeding any sequence produced by _normalize_waypoints to
_build_waypoints_multi and normalizing the resulting delimited string
again returns the same sequence.  The IsDec hypothesis states that the
coordinates are decimal-representable, as every Python float is. -/
theorem c2_round_trip (w : Val) (ws : List (ℚ × ℚ))
    (h1 : normalize_waypoints w = .ok ws)
    (h2 : ∀ c ∈ ws, IsDec c.1 ∧ IsDec c.2) :
    normalize_waypoints (.str (build_waypoints_multi ws)) = .ok ws := by
  rw [build_waypoints_multi_eq, normalize_renderDelim ws h2]
  exact processCoords_ok ws (normalize_ok_range h1)

/-- Witness for C2: a two-point sequence is produced by normalization
and the rendered string normalizes back to it. -/
theorem c2_round_trip_witness :
    normalize_waypoints (.str "12.9,77.5|13.0,77.6") = .ok [(12.9, 77.5), (13.0, 77.6)] ∧
    (∀ c ∈ [((12.9 : ℚ), (77.5 : ℚ)), (13.0, 77.6)], IsDec c.1 ∧ IsDec c.2) ∧
    normalize_waypoints
      (.str (build_waypoints_multi [((12.9 : ℚ), (77.5 : ℚ)), (13.0, 77.6)])) =
        .ok [(12.9, 77.5), (13.0, 77.6)] :=
  ⟨by with_unfolding_all rfl, by with_unfolding_all decide,
   c2_round_trip (.str "12.9,77.5|13.0,77.6") _ (by with_unfolding_all rfl)
     (by with_unfolding_all decide)⟩

/-- Claim C3: whenever some coordinate of the waypoint set is out of
range, every accepted input shape (delimited string, JSON string, list
of pairs, list of mappings, and a single mapping) makes
_normalize_waypoints fail with the out-of-range error. -/
theorem c3_out_of_range (cs : List (ℚ × ℚ))
    (h : ∀ c ∈ cs, IsDec c.1 ∧ IsDec c.2)
    (hbad : ∃ c ∈ cs, ¬ InRange c) :
    (∃ m, normalize_waypoints (.str (build_waypoints_multi cs)) = .error (.outOfRange m)) ∧
    (∃ m, normalize_waypoints (.str (String.mk (renderJsonPairs cs))) = .error (.outOfRange m)) ∧
    (∃ m, normalize_waypoints (.list (cs.map pairVal)) = .error (.outOfRange m)) ∧
    (∃ m, normalize_waypoints (.list (cs.map dictVal)) = .error (.outOfRange m)) ∧
    (∀ a b : ℚ, ¬ InRange (a, b) →
      ∃ m, normalize_waypoints (.dict [("lat", .num a), ("lon", .num b)]) =
        .error (.outOfRange m)) := by
  obtain ⟨m, hm⟩ := processCoords_err cs hbad
  refine ⟨⟨m, ?_⟩, ⟨m, ?_⟩, ⟨m, ?_⟩, ⟨m, ?_⟩, ?_⟩
  · rw [build_waypoints_multi_eq, normalize_renderDelim cs h, hm]
  · rw [normalize_renderJson cs h, hm]
  · rw [normalize_pairs, hm]
  · rw [normalize_dicts, hm]
  · intro a b hab
    obtain ⟨m2, hm2⟩ := validate_err a b hab
    refine ⟨m2, ?_⟩
    rw [normalize_single_dict a b, hm2]
    rfl

/-- Witness for C3 at a set whose second latitude 200 is out of range. -/
theorem c3_out_of_range_witness :
    (∀ c ∈ [((12.9 : ℚ), (77.5 : ℚ)), (200, 0)], IsDec c.1 ∧ IsDec c.2) ∧
    (∃ c ∈ [((12.9 : ℚ), (77.5 : ℚ)), (200, 0)], ¬ InRange c) ∧
    ((∃ m, normalize_waypoints
        (.str (build_waypoints_multi [((12.9 : ℚ), (77.5 : ℚ)), (200, 0)])) =
        .error (.outOfRange m)) ∧
     (∃ m, normalize_waypoints
        (.str (String.mk (renderJsonPairs [((12.9 : ℚ), (77.5 : ℚ)), (200, 0)]))) =
        .error (.outOfRange m)) ∧
     (∃ m, normalize_waypoints (.list ([((12.9 : ℚ), (77.5 : ℚ)), (200, 0)].map pairVal)) =
        .error (.outOfRange m)) ∧
     (∃ m, normalize_waypoints (.list ([((12.9 : ℚ), (77.5 : ℚ)), (200, 0)].map dictVal)) =
        .error (.outOfRange m)) ∧
     (∀ a b : ℚ, ¬ InRange (a, b) →
       ∃ m, normalize_waypoints (.dict [("lat", .num a), ("lon", .num b)]) =
         .error (.outOfRange m))) :=
  ⟨by with_unfolding_all decide,
   ⟨(200, 0), by simp, by with_unfolding_all decide⟩,
   c3_out_of_range _ (by with_unfolding_all decide)
     ⟨(200, 0), by simp, by with_unfolding_all decide⟩⟩

/-- Counterexample to C4 as stated: an empty segment does not cause an
InvalidFormat failure; it is silently dropped and normalization
succeeds. -/
theorem c4_empty_segment_counterexample :
    normalize_waypoints (.str "1,2||3,4") = .ok [(1, 2), (3, 4)] := by
  with_unfolding_all rfl

/-- Claim C4 (amended): in the delimited branch, segments that strip to
the empty string are dropped before any check (so the processed segment
list never contains an empty segment), and the first surviving segment
whose comma-split does not have exactly two components aborts
normalization with the InvalidFormat error naming that segment. -/
theorem c4_delimited_format (s : String) (ps₁ : List (List Char)) (p : List Char)
    (ps₂ : List (List Char))
    (hne : trimList s.data ≠ [])
    (hhead : ¬((trimList s.data).head? = some '[' ∨ (trimList s.data).head? = some '{'))
    (hparts : (((splitOn '|' (trimList s.data)).map trimList).filter (fun q => q ≠ []))
        = ps₁ ++ p :: ps₂)
    (hok : ∀ q ∈ ps₁, ∃ c, processPart q = .ok c)
    (hbad : (splitOn ',' p).length ≠ 2) :
    normalize_waypoints (.str s) = .error (.invalidFormat (String.mk p)) ∧
    ∀ q ∈ (((splitOn '|' (trimList s.data)).map trimList).filter (fun q => q ≠ [])),
      q ≠ [] := by
  constructor
  · unfold normalize_waypoints
    dsimp only
    rw [if_neg hne, if_neg hhead]
    unfold normDelimited
    rw [hparts]
    exact processParts_prefix_error ps₁ p ps₂ _ hok (processPart_not_two p hbad)
  · intro q hq
    simpa using (List.mem_filter.mp hq).2

/-- Witness for C4 (amended) on "1,2|9|3,4": the second segment has one
component, so normalization fails with InvalidFormat on it. -/
theorem c4_delimited_format_witness :
    trimList ("1,2|9|3,4" : String).data ≠ [] ∧
    ¬((trimList ("1,2|9|3,4" : String).data).head? = some '[' ∨
        (trimList ("1,2|9|3,4" : String).data).head? = some '{') ∧
    (((splitOn '|' (trimList ("1,2|9|3,4" : String).data)).map trimList).filter
        (fun q => q ≠ [])) = [['1', ',', '2']] ++ ['9'] :: [['3', ',', '4']] ∧
    (∀ q ∈ [['1', ',', '2']], ∃ c, processPart q = .ok c) ∧
    (splitOn ',' ['9']).length ≠ 2 ∧
    normalize_waypoints (.str "1,2|9|3,4") = .error (.invalidFormat (String.mk ['9'])) :=
  ⟨by with_unfolding_all decide, by with_unfolding_all decide, by with_unfolding_all rfl,
   fun q hq => ⟨(1, 2), by
     rcases List.mem_singleton.mp hq with rfl
     with_unfolding_all rfl⟩,
   by with_unfolding_all decide,
   (c4_delimited_format "1,2|9|3,4" [['1', ',', '2']] ['9'] [['3', ',', '4']]
     (by with_unfolding_all decide) (by with_unfolding_all decide)
     (by with_unfolding_all rfl)
     (fun q hq => ⟨(1, 2), by
       rcases List.mem_singleton.mp hq with rfl
       with_unfolding_all rfl⟩)
     (by with_unfolding_all decide)).1⟩

/-- Counterexample to C5 as stated: with an out-of-range origin latitude
and a non-numeric destination latitude, heavy_truck_distance reports the
destination parse error, not the origin range error. -/
theorem c5_order_counterexample :
    heavy_truck_distance (.str "200") (.str "0") (.str "abc") (.str "0")
        (some "k") none none = .error (.invalidNumber "dest_lat" (.str "abc")) ∧
    ∀ m, (Err.invalidNumber "dest_lat" (.str "abc")) ≠ (Err.outOfRange m) := by
  constructor
  · with_unfolding_all rfl
  · intro m h
    cases h

/-- Claim C5 (amended): validation is sequential and fail-fast.  In
_normalize_waypoints a valid prefix of segments is followed by the first
failing segment, whose error is reported; in heavy_truck_distance all
four coordinates are parsed before any range check, so an unparseable
destination latitude is reported even when the origin is out of
range. -/
theorem c5_validation_order (ps₁ : List (List Char)) (p : List Char)
    (ps₂ : List (List Char)) (e : Err)
    (olat olon dlat dlon : Val) (a b : ℚ) (k conf : Option String)
    (net : Option HttpResp)
    (hok : ∀ q ∈ ps₁, ∃ c, processPart q = .ok c)
    (he : processPart p = .error e)
    (h1 : pyFloat olat = some a) (h2 : pyFloat olon = some b)
    (h3 : pyFloat dlat = none) :
    processParts (ps₁ ++ p :: ps₂) = .error e ∧
    heavy_truck_distance olat olon dlat dlon k conf net =
      .error (.invalidNumber "dest_lat" dlat) := by
  constructor
  · exact processParts_prefix_error ps₁ p ps₂ e hok he
  · unfold heavy_truck_distance parse_float
    rw [h1, h2, h3]
    rfl

/-- Witness for C5 (amended) at the counterexample inputs. -/
theorem c5_validation_order_witness :
    (∀ q ∈ ([] : List (List Char)), ∃ c, processPart q = .ok c) ∧
    processPart ['9'] = .error (.invalidFormat (String.mk ['9'])) ∧
    pyFloat (.str "200") = some 200 ∧
    pyFloat (.str "0") = some 0 ∧
    pyFloat (.str "abc") = none ∧
    (processParts ([] ++ ['9'] :: []) = .error (.invalidFormat (String.mk ['9'])) ∧
     heavy_truck_distance (.str "200") (.str "0") (.str "abc") (.str "0")
        (some "k") none none = .error (.invalidNumber "dest_lat" (.str "abc"))) :=
  ⟨fun q hq => absurd hq (by simp), by with_unfolding_all rfl, by with_unfolding_all rfl,
   by with_unfolding_all rfl, by with_unfolding_all rfl,
   c5_validation_order [] ['9'] [] _ (.str "200") (.str "0") (.str "abc") (.str "0")
     200 0 (some "k") none none (fun q hq => absurd hq (by simp))
     (by with_unfolding_all rfl) (by with_unfolding_all rfl)
     (by with_unfolding_all rfl) (by with_unfolding_all rfl)⟩

/-- Claim C10: a sequence-shaped list item is indexed at positions 0 and
1 with no length check: extra elements are silently ignored, while an
item with fewer than two elements raises an unhandled IndexError (a
crash) rather than a taxonomy error. -/
theorem c10_item_indexing (a b q : ℚ) (extra : List Val) (h : InRange (a, b)) :
    normalize_waypoints (.list [.list (.num a :: .num b :: extra)]) = .ok [(a, b)] ∧
    normalize_waypoints (.list [.list []]) = .error .pyIndexError ∧
    normalize_waypoints (.list [.list [.num q]]) = .error .pyIndexError := by
  refine ⟨?_, rfl, rfl⟩
  show processItems [.list (.num a :: .num b :: extra)] = .ok [(a, b)]
  simp only [processItems, processItem, parse_float, pyFloat, bindE_ok]
  rw [(validate_ok_iff a b).mpr h]
  rfl

/-- Witness for C10 at (12.9, 77.5) with one extra element. -/
theorem c10_item_indexing_witness :
    InRange ((12.9 : ℚ), (77.5 : ℚ)) ∧
    (normalize_waypoints
        (.list [.list [.num 12.9, .num 77.5, .num 1]]) = .ok [(12.9, 77.5)] ∧
     normalize_waypoints (.list [.list []]) = .error .pyIndexError ∧
     normalize_waypoints (.list [.list [.num 5]]) = .error .pyIndexError) :=
  ⟨by with_unfolding_all decide,
   c10_item_indexing 12.9 77.5 5 [.num 1] (by with_unfolding_all decide)⟩

/-! ### Gateway helper lemmas -/

theorem heavy_truck_distance_net (a b c d : ℚ) (k : String) (hk : k ≠ "")
    (conf : Option String) (net : Option HttpResp)
    (h1 : InRange (a, b)) (h2 : InRange (c, d)) :
    heavy_truck_distance (.num a) (.num b) (.num c) (.num d) (some k) conf net =
      match net with
      | none => .error .upstreamUnavailable
      | some resp => distance_handle_response resp := by
  unfold heavy_truck_distance
  simp only [parse_float, pyFloat, bindE_ok]
  rw [(validate_ok_iff a b).mpr h1]
  simp only [bindE_ok]
  rw [(validate_ok_iff c d).mpr h2]
  simp only [bindE_ok]
  unfold get_geoapify_key
  dsimp only
  rw [if_pos hk]
  simp only [bindE_ok]

theorem heavy_truck_route_geojson_net (a b c d : ℚ) (k : String) (hk : k ≠ "")
    (conf : Option String) (net : Option HttpResp)
    (h1 : InRange (a, b)) (h2 : InRange (c, d)) :
    heavy_truck_route_geojson (.list [pairVal (a, b), pairVal (c, d)])
        (some k) conf net =
      match net with
      | none => .error .upstreamUnavailable
      | some resp => geojson_handle_response resp := by
  unfold heavy_truck_route_geojson
  unfold get_geoapify_key
  dsimp only
  rw [if_pos hk]
  simp only [bindE_ok]
  have hn : normalize_waypoints (.list [pairVal (a, b), pairVal (c, d)]) =
      .ok [(a, b), (c, d)] := by
    rw [show ([pairVal (a, b), pairVal (c, d)] : List Val) =
      ([((a : ℚ), (b : ℚ)), (c, d)]).map pairVal from rfl, normalize_pairs]
    apply processCoords_ok
    intro x hx
    rcases List.mem_cons.mp hx with rfl | hx2
    · exact h1
    · rcases List.mem_singleton.mp hx2 with rfl
      exact h2
  rw [hn]
  simp only [bindE_ok]
  rw [if_neg (by simp)]

theorem distance_handle_response_err (resp : HttpResp) (h : resp.status ≠ 200) :
    distance_handle_response resp =
      .error (.upstreamError resp.status (errorPayload resp)) := by
  unfold distance_handle_response
  rw [if_pos h]

theorem geojson_handle_response_err (resp : HttpResp) (h : resp.status ≠ 200) :
    geojson_handle_response resp =
      .error (.upstreamError resp.status (errorPayload resp)) := by
  unfold geojson_handle_response
  rw [if_pos h]

theorem firstIndex_cases (v : Val) :
    firstIndex v = .error .pyError ∨ ∃ u, firstIndex v = .ok u := by
  rcases v with _ | b | q | s | items | d
  · exact Or.inl rfl
  · exact Or.inl rfl
  · exact Or.inl rfl
  · exact Or.inl rfl
  · rcases items with _ | ⟨x, r⟩
    · exact Or.inl rfl
    · exact Or.inr ⟨x, rfl⟩
  · exact Or.inl rfl

theorem vGet_cases (v : Val) (k : String) :
    vGet v k = .error .pyError ∨ ∃ u, vGet v k = .ok u := by
  rcases v with _ | b | q | s | items | d
  · exact Or.inl rfl
  · exact Or.inl rfl
  · exact Or.inl rfl
  · exact Or.inl rfl
  · exact Or.inl rfl
  · exact Or.inr ⟨dGet d k, rfl⟩

theorem bind_ne_upstream {α : Type} {x : Except Err α} {f : α → Except Err Val}
    (hx : x = .error .pyError ∨ ∃ u, x = .ok u)
    (hf : ∀ u st pl, f u ≠ .error (.upstreamError st pl)) :
    ∀ st pl, (x >>= f) ≠ .error (.upstreamError st pl) := by
  intro st pl
  rcases hx with rfl | ⟨u, rfl⟩
  · rw [bindE_err]
    simp
  · rw [bindE_ok]
    exact hf u st pl

theorem distance_handle_response_ok_status (resp : HttpResp) (h : resp.status = 200) :
    ∀ st pl, distance_handle_response resp ≠ .error (.upstreamError st pl) := by
  unfold distance_handle_response
  rw [if_neg (by simp [h])]
  rcases jParse resp.text with _ | data
  · simp
  rcases data with _ | b | q | s | items | d <;> dsimp only <;> try simp
  by_cases ht : truthy (dGet d "results")
  · rw [if_neg (by simpa using ht)]
    apply bind_ne_upstream (firstIndex_cases _)
    intro u
    apply bind_ne_upstream (vGet_cases _ _)
    intro u2
    apply bind_ne_upstream (vGet_cases _ _)
    intro u3
    apply bind_ne_upstream (vGet_cases _ _)
    intro u4
    apply bind_ne_upstream (vGet_cases _ _)
    intro u5
    apply bind_ne_upstream (vGet_cases _ _)
    intro u6 st pl
    simp [pureE]
  · rw [if_pos (by simpa using ht)]
    simp

theorem geojson_handle_response_ok_status (resp : HttpResp) (h : resp.status = 200) :
    ∀ st pl, geojson_handle_response resp ≠ .error (.upstreamError st pl) := by
  unfold geojson_handle_response
  rw [if_neg (by simp [h])]
  rcases jParse resp.text with _ | data
  · simp
  rcases data with _ | b | q | s | items | d <;> dsimp only <;> try simp
  by_cases ht : truthy (dGet d "features")
  · rw [if_neg (by simpa using ht)]
    apply bind_ne_upstream (firstIndex_cases _)
    intro u
    apply bind_ne_upstream (vGet_cases _ _)
    intro u2 st pl
    rcases hv : (if truthy u2 = true then u2 else Val.dict []) with _ | b | q | s | items | dd <;>
      simp [pureE]
  · rw [if_pos (by simpa using ht)]
    simp

/-! ### C6: key resolution -/

/-- Counterexample to C6 as stated: a whitespace-only explicit key is
truthy, takes precedence, and its stripped value — the empty string — is
returned, so _get_geoapify_key can return an empty key. -/
theorem c6_empty_key_counterexample :
    get_geoapify_key (some " ") none = .ok "" ∧ (" " : String) ≠ "" :=
  ⟨by with_unfolding_all rfl, by decide⟩

/-- Claim C6 (amended): a non-empty explicit key takes precedence over
any configured key and its stripped value is returned (even when
stripping yields the empty string); an empty or absent explicit key
falls back to the configured value, whose stripped value is returned
when non-empty and otherwise the call fails with MissingCredential — on
the fallback path an empty key is never returned. -/
theorem c6_key_resolution (s : String) (conf : Option String) :
    (s ≠ "" → ∀ conf2 : Option String,
      get_geoapify_key (some s) conf = get_geoapify_key (some s) conf2 ∧
      get_geoapify_key (some s) conf = .ok (pyStrip s)) ∧
    get_geoapify_key none conf = get_geoapify_key (some "") conf ∧
    (pyStrip (conf.getD "") = "" →
      get_geoapify_key none conf = .error .missingCredential) ∧
    (pyStrip (conf.getD "") ≠ "" →
      get_geoapify_key none conf = .ok (pyStrip (conf.getD ""))) ∧
    (∀ key, get_geoapify_key none conf = .ok key → key ≠ "") := by
  refine ⟨?_, ?_, ?_, ?_, ?_⟩
  · intro hs conf2
    refine ⟨?_, ?_⟩
    · unfold get_geoapify_key
      dsimp only
      rw [if_pos hs, if_pos hs]
    · unfold get_geoapify_key
      dsimp only
      rw [if_pos hs]
  · unfold get_geoapify_key
    dsimp only
    rw [if_neg (show ¬(("" : String) ≠ "") from by decide)]
  · intro h
    unfold get_geoapify_key
    dsimp only
    rw [if_pos h]
  · intro h
    unfold get_geoapify_key
    dsimp only
    rw [if_neg h]
  · intro key hkey
    by_cases h : pyStrip (conf.getD "") = ""
    · unfold get_geoapify_key at hkey
      dsimp only at hkey
      rw [if_pos h] at hkey
      exact absurd hkey (by simp)
    · unfold get_geoapify_key at hkey
      dsimp only at hkey
      rw [if_neg h] at hkey
      simp only [Except.ok.injEq] at hkey
      rw [← hkey]
      exact h

/-- Witness for C6 (amended): explicit precedence, configured fallback,
and the missing-credential failure, at concrete keys. -/
theorem c6_key_resolution_witness :
    get_geoapify_key (some "abc") (some "zzz") = .ok (pyStrip "abc") ∧
    get_geoapify_key none (some "zzz") = .ok (pyStrip ((some "zzz").getD "")) ∧
    get_geoapify_key none none = .error .missingCredential :=
  ⟨((c6_key_resolution "abc" (some "zzz")).1 (by decide) none).2,
   (c6_key_resolution "x" (some "zzz")).2.2.2.1 (by with_unfolding_all decide),
   (c6_key_resolution "x" none).2.2.1 (by with_unfolding_all rfl)⟩

/-! ### C7: upstream status handling -/

/-- Counterexample to C7 as stated: a 204 response is a 2xx success
status, yet heavy_truck_distance fails with UpstreamError because the
code tests for exactly 200. -/
theorem c7_status_204_counterexample :
    heavy_truck_distance (.num 0) (.num 0) (.num 1) (.num 1) (some "k") none
        (some ⟨204, "ok"⟩) =
      .error (.upstreamError 204 (.dict [("message", .str "ok")])) ∧
    200 ≤ 204 ∧ 204 < 300 :=
  ⟨by with_unfolding_all rfl, by decide, by decide⟩

/-- Claim C7 (amended): for both routing endpoints, once the request
reaches the provider, the call fails with UpstreamError carrying the
status code and the parsed error body (or the raw text wrapped in a
message when not parseable, as errorPayload states) exactly when the
response status differs from 200. -/
theorem c7_upstream_status (a b c d : ℚ) (k : String) (conf : Option String)
    (resp : HttpResp) (hk : k ≠ "") (h1 : InRange (a, b)) (h2 : InRange (c, d)) :
    (resp.status ≠ 200 →
      heavy_truck_distance (.num a) (.num b) (.num c) (.num d) (some k) conf (some resp)
          = .error (.upstreamError resp.status (errorPayload resp)) ∧
      heavy_truck_route_geojson (.list [pairVal (a, b), pairVal (c, d)]) (some k) conf
          (some resp) = .error (.upstreamError resp.status (errorPayload resp))) ∧
    (resp.status = 200 → ∀ st pl,
      heavy_truck_distance (.num a) (.num b) (.num c) (.num d) (some k) conf (some resp)
          ≠ .error (.upstreamError st pl) ∧
      heavy_truck_route_geojson (.list [pairVal (a, b), pairVal (c, d)]) (some k) conf
          (some resp) ≠ .error (.upstreamError st pl)) := by
  rw [heavy_truck_distance_net a b c d k hk conf (some resp) h1 h2,
    heavy_truck_route_geojson_net a b c d k hk conf (some resp) h1 h2]
  constructor
  · intro hst
    exact ⟨distance_handle_response_err resp hst, geojson_handle_response_err resp hst⟩
  · intro hst st pl
    exact ⟨distance_handle_response_ok_status resp hst st pl,
      geojson_handle_response_ok_status resp hst st pl⟩

/-- Witness for C7 (amended): the 403 scenario carries code 403 and the
provider body, and a 200 response is never an UpstreamError. -/
theorem c7_upstream_status_witness :
    heavy_truck_distance (.num 12.9) (.num 77.5) (.num 13) (.num 77.6) (some "k") none
        (some ⟨403, "x"⟩) =
      .error (.upstreamError 403 (errorPayload ⟨403, "x"⟩)) ∧
    heavy_truck_route_geojson
        (.list [pairVal ((12.9 : ℚ), (77.5 : ℚ)), pairVal (13, 77.6)]) (some "k") none
        (some ⟨403, "x"⟩) =
      .error (.upstreamError 403 (errorPayload ⟨403, "x"⟩)) ∧
    ∀ st pl,
      heavy_truck_distance (.num 12.9) (.num 77.5) (.num 13) (.num 77.6) (some "k") none
          (some ⟨200, "nonsense"⟩) ≠ .error (.upstreamError st pl) :=
  ⟨((c7_upstream_status 12.9 77.5 13 77.6 "k" none ⟨403, "x"⟩ (by decide)
      (by with_unfolding_all decide) (by with_unfolding_all decide)).1 (by decide)).1,
   ((c7_upstream_status 12.9 77.5 13 77.6 "k" none ⟨403, "x"⟩ (by decide)
      (by with_unfolding_all decide) (by with_unfolding_all decide)).1 (by decide)).2,
   fun st pl =>
     ((c7_upstream_status 12.9 77.5 13 77.6 "k" none ⟨200, "nonsense"⟩ (by decide)
      (by with_unfolding_all decide) (by with_unfolding_all decide)).2 rfl st pl).1⟩

/-! ### C9: empty results -/

/-- Claim C9: on a 200 response whose results (respectively features)
entry is absent, null, or the empty list, the distance endpoint
(respectively the geometry endpoint) fails with EmptyResult rather than
crashing. -/
theorem c9_empty_results (a b c d : ℚ) (k : String) (conf : Option String)
    (resp resp2 : HttpResp) (dd ee : List (String × Val))
    (hk : k ≠ "") (h1 : InRange (a, b)) (h2 : InRange (c, d))
    (hs1 : resp.status = 200) (hj1 : jParse resp.text = some (.dict dd))
    (hres : dLookup dd "results" = none ∨ dLookup dd "results" = some .null ∨
      dLookup dd "results" = some (.list []))
    (hs2 : resp2.status = 200) (hj2 : jParse resp2.text = some (.dict ee))
    (hfeat : dLookup ee "features" = none ∨ dLookup ee "features" = some .null ∨
      dLookup ee "features" = some (.list [])) :
    heavy_truck_distance (.num a) (.num b) (.num c) (.num d) (some k) conf (some resp)
        = .error .emptyResult ∧
    heavy_truck_route_geojson (.list [pairVal (a, b), pairVal (c, d)]) (some k) conf
        (some resp2) = .error .emptyResult := by
  rw [heavy_truck_distance_net a b c d k hk conf (some resp) h1 h2,
    heavy_truck_route_geojson_net a b c d k hk conf (some resp2) h1 h2]
  dsimp only
  constructor
  · unfold distance_handle_response
    rw [if_neg (by simp [hs1]), hj1]
    dsimp only
    have hg : dGet dd "results" = .null ∨ dGet dd "results" = .list [] := by
      unfold dGet
      rcases hres with h | h | h <;> rw [h] <;> simp
    rcases hg with h | h <;> rw [h] <;> simp [truthy]
  · unfold geojson_handle_response
    rw [if_neg (by simp [hs2]), hj2]
    dsimp only
    have hg : dGet ee "features" = .null ∨ dGet ee "features" = .list [] := by
      unfold dGet
      rcases hfeat with h | h | h <;> rw [h] <;> simp
    rcases hg with h | h <;> rw [h] <;> simp [truthy]

/-- Witness for C9 at a response with an empty results array and a
feature collection with an empty feature list. -/
theorem c9_empty_results_witness :
    jParse "\x7b\"results\": []\x7d" = some (.dict [("results", .list [])]) ∧
    jParse "\x7b\"features\": null\x7d" = some (.dict [("features", .null)]) ∧
    (heavy_truck_distance (.num 12.9) (.num 77.5) (.num 13) (.num 77.6) (some "k") none
        (some ⟨200, "\x7b\"results\": []\x7d"⟩) = .error .emptyResult ∧
     heavy_truck_route_geojson
        (.list [pairVal ((12.9 : ℚ), (77.5 : ℚ)), pairVal (13, 77.6)]) (some "k") none
        (some ⟨200, "\x7b\"features\": null\x7d"⟩) = .error .emptyResult) :=
  ⟨by with_unfolding_all rfl, by with_unfolding_all rfl,
   c9_empty_results 12.9 77.5 13 77.6 "k" none ⟨200, "\x7b\"results\": []\x7d"⟩
     ⟨200, "\x7b\"features\": null\x7d"⟩ [("results", .list [])] [("features", .null)]
     (by decide) (by with_unfolding_all decide) (by with_unfolding_all decide)
     rfl (by with_unfolding_all rfl)
     (Or.inr (Or.inr (by with_unfolding_all rfl)))
     rfl (by with_unfolding_all rfl)
     (Or.inr (Or.inl (by with_unfolding_all rfl)))⟩

/-! ### C8: autocomplete -/

/-- The reshaped suggestion for a well-formed feature. -/
def suggestionOf (f : Val) : Val :=
  match f with
  | .dict d =>
    match dLookup d "properties" with
    | some (.dict p) =>
      .dict [("label", dGet p "formatted"), ("lat", dGet p "lat"),
        ("lon", dGet p "lon"), ("place_id", dGet p "place_id")]
    | _ => .null
  | _ => .null

/-- A feature the reshaping step accepts: a dict whose properties entry
is a dict. -/
def WFFeature (f : Val) : Prop :=
  ∃ d p, f = .dict d ∧ dLookup d "properties" = some (.dict p)

theorem reshapeFeature_wf {f : Val} (h : WFFeature f) :
    reshapeFeature f = .ok (suggestionOf f) := by
  obtain ⟨d, p, rfl, hp⟩ := h
  unfold reshapeFeature suggestionOf
  dsimp only
  rw [hp]

theorem mapM_reshape (fs : List Val) (h : ∀ f ∈ fs, WFFeature f) :
    fs.mapM reshapeFeature = .ok (fs.map suggestionOf) := by
  induction fs with
  | nil => rfl
  | cons f fs ih =>
    rw [List.mapM_cons, reshapeFeature_wf (h f (by simp)), List.map_cons]
    simp only [bindE_ok]
    rw [ih (fun x hx => h x (by simp [hx]))]
    rfl

/-- Claim C8: autocomplete returns an empty list with no outbound call
whenever the text is absent or shorter than three characters, and
otherwise returns at most the first ten features of the response,
reshaped to label/lat/lon/place_id dicts in the provider order. -/
theorem c8_autocomplete (s key : String) (resp : HttpResp)
    (d : List (String × Val)) (fs : List Val)
    (hlen : 3 ≤ s.length) (hkey : key ≠ "") (hstatus : resp.status < 400)
    (hjson : jParse resp.text = some (.dict d))
    (hfs : dLookup d "features" = some (.list fs))
    (hwf : ∀ f ∈ fs, WFFeature f) :
    (∀ (t : Option String) (conf2 : Option String) (net2 : Option HttpResp),
      (t.getD "").length < 3 → autocomplete t conf2 net2 = (false, .ok [])) ∧
    autocomplete (some s) (some key) (some resp) =
      (true, .ok ((fs.take 10).map suggestionOf)) := by
  constructor
  · intro t conf2 net2 ht
    unfold autocomplete
    rw [if_pos ht]
  · unfold autocomplete
    rw [if_neg (by simp only [Option.getD_some]; omega)]
    dsimp only
    rw [if_neg hkey, if_neg (by omega), hjson]
    dsimp only
    rw [hfs]
    dsimp only
    rw [mapM_reshape _ (fun f hf => hwf f (List.take_subset 10 fs hf))]

/-- Witness for C8: the "ab" short-circuit of the spec scenario and a
two-feature response reshaped in order. -/
theorem c8_autocomplete_witness :
    autocomplete (some "ab") (some "k") none = (false, .ok []) ∧
    autocomplete (some "Lag") (some "k")
        (some ⟨200, "\x7b\"features\": [\x7b\"properties\": \x7b\"formatted\": \"A\"\x7d\x7d]\x7d"⟩) =
      (true, .ok ([Val.dict [("properties", Val.dict [("formatted", Val.str "A")])]].map
        suggestionOf)) :=
  ⟨(c8_autocomplete "Lag" "k" ⟨200, "\x7b\"features\": []\x7d"⟩ [("features", .list [])] []
      (by decide) (by decide) (by decide) (by with_unfolding_all rfl)
      (by with_unfolding_all rfl) (by simp)).1 (some "ab") (some "k") none (by decide),
   (c8_autocomplete "Lag" "k"
      ⟨200, "\x7b\"features\": [\x7b\"properties\": \x7b\"formatted\": \"A\"\x7d\x7d]\x7d"⟩
      [("features", Val.list [Val.dict [("properties", Val.dict [("formatted", Val.str "A")])]])]
      [Val.dict [("properties", Val.dict [("formatted", Val.str "A")])]]
      (by decide) (by decide) (by decide) (by with_unfolding_all rfl)
      (by with_unfolding_all rfl)
      (by
        intro f hf
        rcases List.mem_singleton.mp hf with rfl
        exact ⟨[("properties", Val.dict [("formatted", Val.str "A")])],
          [("formatted", Val.str "A")], rfl, by with_unfolding_all rfl⟩)).2⟩

end GeoErp
